import Mathlib

/-!
Verification of the maze-rust repository: a shallow embedding of the maze
data model (`src/maze/mod.rs`, `src/maze/grid.rs`), the carving routers
(`src/router/binarytree.rs`, `src/router/sidewinder.rs`) and the distance
solver (`src/solver/dijkstra.rs`, `src/solver/mod.rs`), together with
proofs about the embedded definitions.

Modelling conventions:
* `u32` values are `Nat`s; arithmetic that can wrap in the Rust source
  (release-profile wrapping semantics) is written with an explicit
  `% u32size`.  Realistic grids satisfy `rows * columns < u32size`, which
  appears as a hypothesis where the reasoning needs it.
* `HashMap`/`HashSet` become functions to `Option` and `Finset`; the
  per-cell attribute map becomes `Cell → Option Attributes` whose `none`
  means the cell is masked (absent from the map).  Rust lookups that
  panic on a missing key are modelled as no-ops on `none`; the theorems
  that rely on a lookup never missing prove that fact separately.
* The recursive solver walk is modelled with fuel `cells.length + 1`;
  the closure lemmas below show that this fuel never runs out for grids
  produced by the constructor.
-/

/-- Size of the `u32` value space. -/
def u32size : Nat := 4294967296

/-- Size of the `usize` (64-bit) value space. -/
def u64size : Nat := 18446744073709551616

/-- A grid position (`Cell` in `src/maze/mod.rs`): row and column. -/
structure Cell where
  row : Nat
  column : Nat
deriving DecidableEq, Repr

/-- The four-point compass (`Compass` in `src/maze/grid.rs`). -/
inductive Compass where
  | north
  | east
  | south
  | west
deriving DecidableEq, Repr

/-- The fixed enumeration order of `Compass::iter`. -/
def Compass.all : List Compass := [Compass.north, Compass.east, Compass.south, Compass.west]

/-- Direction reversal (`Compass::reverse`). -/
def Compass.reverse : Compass → Compass
  | Compass.north => Compass.south
  | Compass.east => Compass.west
  | Compass.south => Compass.north
  | Compass.west => Compass.east

/-- Unchecked neighbour coordinates (`Compass::neighbour`); the `u32`
subtraction and addition wrap, hence the explicit `% u32size`. -/
def Compass.neighbour : Compass → Nat → Nat → Nat × Nat
  | Compass.north, row, column => ((row + u32size - 1) % u32size, column)
  | Compass.east, row, column => (row, (column + 1) % u32size)
  | Compass.south, row, column => ((row + 1) % u32size, column)
  | Compass.west, row, column => (row, (column + u32size - 1) % u32size)

/-- Bounds-guarded neighbour (`Compass::checked_neighbour`).  The guards
`columns - 1` and `rows - 1` are `u32` subtractions and wrap when the
bound is zero, exactly as the release-profile source does. -/
def Compass.checked_neighbour : Compass → Nat → Nat → Nat → Nat → Option (Nat × Nat)
  | Compass.north, _, _, row, column =>
      if 0 < row then some (Compass.north.neighbour row column) else none
  | Compass.east, _, columns, row, column =>
      if column < (columns + u32size - 1) % u32size then
        some (Compass.east.neighbour row column)
      else none
  | Compass.south, rows, _, row, column =>
      if row < (rows + u32size - 1) % u32size then
        some (Compass.south.neighbour row column)
      else none
  | Compass.west, _, _, row, column =>
      if 0 < column then some (Compass.west.neighbour row column) else none

/-- Row-major linear index (`Compass::offset`); the `u32` product and sum
wrap, hence the `% u32size`. -/
def Compass.offset (rows columns row column : Nat) : Option Nat :=
  if row ≥ rows ∨ column ≥ columns then none
  else some ((row * columns + column) % u32size)

/-- Reversal is an involution. -/
theorem Compass.reverse_reverse (c : Compass) : c.reverse.reverse = c := by
  cases c <;> rfl

/-- Per-cell mutable state (`Attributes` in `src/maze/mod.rs`): the
immutable neighbour map, the link set and the optional distance. -/
structure Attributes where
  neighbours : Compass → Option Cell
  links : Finset Compass
  distance : Option Nat

/-- The maze aggregate (`Grid` in `src/maze/grid.rs`): dimensions, the
row-major cell array (`none` = masked slot), the attribute map and the
render-scaling maximum distance. -/
structure Grid where
  rows : Nat
  columns : Nat
  cells : List (Option Cell)
  attrs : Cell → Option Attributes
  max_distance : Option Nat

/-- Neighbour lookup (`Grid::neighbour`): consult the cell's attribute
record and its neighbour map.  A missing attribute record (a panic in the
source) is modelled as `none`. -/
def Grid.nbr (g : Grid) (cell : Cell) (d : Compass) : Option Cell :=
  (g.attrs cell).bind fun a => a.neighbours d

/-- Link-set lookup (`Grid::links`); a masked cell has no record and is
read as the empty set. -/
def Grid.linkSet (g : Grid) (cell : Cell) : Finset Compass :=
  match g.attrs cell with
  | some a => a.links
  | none => ∅

/-- Distance lookup (`Attributes::distance` through the map). -/
def Grid.distanceOf (g : Grid) (cell : Cell) : Option Nat :=
  match g.attrs cell with
  | some a => a.distance
  | none => none

/-- Pointwise update of one cell's attribute record (the effect of
`attributes_mut` followed by a mutation); on a missing record the update
is a no-op (the source would panic there). -/
def Grid.updateAttrs (g : Grid) (cell : Cell) (f : Attributes → Attributes) : Grid :=
  { g with attrs := fun x => if x = cell then (g.attrs cell).map f else g.attrs x }

/-- Insert a direction into one cell's link set (`Attributes::add_link`). -/
def Grid.addLinkAt (g : Grid) (cell : Cell) (d : Compass) : Grid :=
  g.updateAttrs cell fun a => { a with links := insert d a.links }

/-- Remove a direction from one cell's link set (`Attributes::remove_link`). -/
def Grid.removeLinkAt (g : Grid) (cell : Cell) (d : Compass) : Grid :=
  g.updateAttrs cell fun a => { a with links := a.links.erase d }

/-- Open a passage (`Grid::link_cell`): if the neighbour exists, insert
the direction at the cell and the reversed direction at the neighbour and
return the neighbour; otherwise change nothing and return `none`. -/
def Grid.link_cell (g : Grid) (cell : Cell) (d : Compass) : Grid × Option Cell :=
  match g.nbr cell d with
  | some t => (((g.addLinkAt cell d).addLinkAt t d.reverse), some t)
  | none => (g, none)

/-- Close a passage (`Grid::unlink_cell`): symmetric removal with the
same no-op contract. -/
def Grid.unlink_cell (g : Grid) (cell : Cell) (d : Compass) : Grid × Option Cell :=
  match g.nbr cell d with
  | some t => (((g.removeLinkAt cell d).removeLinkAt t d.reverse), some t)
  | none => (g, none)

/-- One row of the cell array built by `Grid::build_cells`. -/
def buildRow (columns : Nat) (allowed : Nat → Nat → Bool) (row : Nat) : List (Option Cell) :=
  (List.range columns).map fun column =>
    if allowed row column then some ⟨row, column⟩ else none

/-- The row-major cell array (`Grid::build_cells`): one slot per
position, masked slots left as `none`. -/
def build_cells (rows columns : Nat) (allowed : Nat → Nat → Bool) : List (Option Cell) :=
  (List.range rows).flatMap (buildRow columns allowed)

/-- The neighbour map of one cell (`Grid::_neighbours`): for every
direction, a bounds-checked move followed by a lookup in the cell array;
masked or out-of-range targets are absent. -/
def neighboursFn (cells : List (Option Cell)) (rows columns : Nat) (cell : Cell) :
    Compass → Option Cell :=
  fun d =>
    (d.checked_neighbour rows columns cell.row cell.column).bind fun rc =>
      (Compass.offset rows columns rc.1 rc.2).bind fun i => cells.getD i none

/-- The attribute map (`Grid::build_attributes`): exactly the unmasked
cells get a record, with the precomputed neighbour map, an empty link set
and no distance. -/
def build_attributes (cells : List (Option Cell)) (rows columns : Nat) :
    Cell → Option Attributes :=
  fun c =>
    if some c ∈ cells then
      some { neighbours := neighboursFn cells rows columns c, links := ∅, distance := none }
    else none

/-- Grid construction before carving (`Grid::grid` with the `NoOp`
router): build the cell array and the attribute map eagerly. -/
def gridBuild (rows columns : Nat) (allowed : Nat → Nat → Bool) : Grid :=
  { rows := rows
    columns := columns
    cells := build_cells rows columns allowed
    attrs := build_attributes (build_cells rows columns allowed) rows columns
    max_distance := none }

/-- Cell lookup by coordinates (`Grid::cell`): row-major offset into the
cell array, `none` when out of range or masked. -/
def Grid.cell_at (g : Grid) (row column : Nat) : Option Cell :=
  match Compass.offset g.rows g.columns row column with
  | some i => g.cells.getD i none
  | none => none

/-- A link or unlink mutation, the two operations a router or caller can
apply to a built maze. -/
inductive Op where
  | link (cell : Cell) (d : Compass)
  | unlink (cell : Cell) (d : Compass)

/-- Apply one mutation. -/
def Grid.applyOp (g : Grid) : Op → Grid
  | Op.link cell d => (g.link_cell cell d).1
  | Op.unlink cell d => (g.unlink_cell cell d).1

/-- Apply a sequence of mutations in order. -/
def Grid.applyOps (g : Grid) (ops : List Op) : Grid :=
  ops.foldl Grid.applyOp g

example : (gridBuild 2 2 (fun _ _ => true)).cell_at 1 1 = some ⟨1, 1⟩ := by decide

example :
    Compass.west ∈
      ((gridBuild 2 2 (fun _ _ => true)).applyOps [Op.link ⟨0, 0⟩ Compass.east]).linkSet ⟨0, 1⟩ := by
  decide

/-- Reading a `getD` hit off the end of the list is impossible: a
successful default-free read means the element is in the list. -/
theorem getD_none_eq_some_mem {l : List (Option Cell)} {i : Nat} {b : Cell}
    (h : l.getD i none = some b) : some b ∈ l := by
  rw [List.getD_eq_getElem?_getD] at h
  cases hx : l[i]? with
  | none => rw [hx] at h; simp at h
  | some x =>
      rw [hx] at h
      simp only [Option.getD_some] at h
      subst h
      exact List.getElem?_mem hx

theorem buildRow_length (columns : Nat) (allowed : Nat → Nat → Bool) (row : Nat) :
    (buildRow columns allowed row).length = columns := by
  simp [buildRow]

theorem build_cells_length (rows columns : Nat) (allowed : Nat → Nat → Bool) :
    (build_cells rows columns allowed).length = rows * columns := by
  induction rows with
  | zero => simp [build_cells]
  | succ n ih =>
      simp only [build_cells, List.range_succ, List.flatMap_append] at *
      simp [ih, buildRow_length, Nat.succ_mul]

theorem buildRow_getElem (columns : Nat) (allowed : Nat → Nat → Bool) (row column : Nat)
    (hc : column < columns) :
    (buildRow columns allowed row)[column]? =
      some (if allowed row column then some ⟨row, column⟩ else none) := by
  simp [buildRow, List.getElem?_map, List.getElem?_range hc]

theorem build_cells_getElem (rows columns : Nat) (allowed : Nat → Nat → Bool)
    (row column : Nat) (hr : row < rows) (hc : column < columns) :
    (build_cells rows columns allowed)[row * columns + column]? =
      some (if allowed row column then some ⟨row, column⟩ else none) := by
  induction rows with
  | zero => omega
  | succ n ih =>
      simp only [build_cells, List.range_succ, List.flatMap_append] at *
      rw [List.getElem?_append]
      by_cases hrn : row < n
      · have hlt : row * columns + column < ((List.range n).flatMap (buildRow columns allowed)).length := by
          have h1 : (row + 1) * columns ≤ n * columns :=
            Nat.mul_le_mul_right columns hrn
          have h2 : ((List.range n).flatMap (buildRow columns allowed)).length =
              n * columns := build_cells_length n columns allowed
          rw [h2]
          calc row * columns + column < row * columns + columns := by omega
            _ = (row + 1) * columns := by ring
            _ ≤ n * columns := h1
        rw [if_pos hlt]
        exact ih hrn
      · have hrow : row = n := by omega
        subst hrow
        have hlen : ((List.range row).flatMap (buildRow columns allowed)).length =
            row * columns := build_cells_length row columns allowed
        have hnlt : ¬ (row * columns + column < ((List.range row).flatMap (buildRow columns allowed)).length) := by rw [hlen]; omega
        rw [if_neg hnlt, hlen]
        have hidx : row * columns + column - row * columns = column := by omega
        rw [hidx]
        simp only [List.flatMap_cons, List.flatMap_nil, List.append_nil]
        exact buildRow_getElem columns allowed row column hc

theorem mem_buildRow {columns : Nat} {allowed : Nat → Nat → Bool} {row : Nat} {c : Cell} :
    some c ∈ buildRow columns allowed row ↔
      c.row = row ∧ c.column < columns ∧ allowed row c.column = true := by
  simp only [buildRow, List.mem_map, List.mem_range]
  constructor
  · rintro ⟨col, hcol, hif⟩
    by_cases ha : allowed row col = true
    · rw [if_pos ha] at hif
      cases hif
      exact ⟨rfl, hcol, ha⟩
    · rw [if_neg ha] at hif
      simp at hif
  · rintro ⟨hrow, hcol, ha⟩
    refine ⟨c.column, hcol, ?_⟩
    rw [← hrow] at ha
    rw [← hrow, if_pos ha]

theorem mem_build_cells {rows columns : Nat} {allowed : Nat → Nat → Bool} {c : Cell} :
    some c ∈ build_cells rows columns allowed ↔
      c.row < rows ∧ c.column < columns ∧ allowed c.row c.column = true := by
  simp only [build_cells, List.mem_flatMap, List.mem_range]
  constructor
  · rintro ⟨row, hrow, hmem⟩
    obtain ⟨h1, h2, h3⟩ := mem_buildRow.1 hmem
    subst h1
    exact ⟨hrow, h2, h3⟩
  · rintro ⟨h1, h2, h3⟩
    exact ⟨c.row, h1, mem_buildRow.2 ⟨rfl, h2, h3⟩⟩

/-- In-range row-major indices stay below `u32size` when the whole grid
does, so the `u32` offset arithmetic does not wrap. -/
theorem offset_index_lt {rows columns row column : Nat}
    (hsize : rows * columns < u32size) (hr : row < rows) (hc : column < columns) :
    row * columns + column < u32size := by
  have h1 : (row + 1) * columns ≤ rows * columns := Nat.mul_le_mul_right columns hr
  calc row * columns + column < row * columns + columns := by omega
    _ = (row + 1) * columns := by ring
    _ ≤ rows * columns := h1
    _ < u32size := hsize

theorem offset_eq {rows columns row column : Nat}
    (hsize : rows * columns < u32size) (hr : row < rows) (hc : column < columns) :
    Compass.offset rows columns row column = some (row * columns + column) := by
  have hlt := offset_index_lt hsize hr hc
  simp only [Compass.offset]
  rw [if_neg (by omega)]
  rw [Nat.mod_eq_of_lt hlt]

theorem offset_none {rows columns row column : Nat}
    (h : ¬ (row < rows ∧ column < columns)) :
    Compass.offset rows columns row column = none := by
  simp only [Compass.offset]
  rw [if_pos (by omega)]

theorem gridBuild_rows (rows columns : Nat) (allowed : Nat → Nat → Bool) :
    (gridBuild rows columns allowed).rows = rows := rfl

theorem gridBuild_columns (rows columns : Nat) (allowed : Nat → Nat → Bool) :
    (gridBuild rows columns allowed).columns = columns := rfl

/-- The condition under which a coordinate pair denotes an unmasked cell
of the built grid. -/
def inGrid (rows columns : Nat) (allowed : Nat → Nat → Bool) (c : Cell) : Prop :=
  c.row < rows ∧ c.column < columns ∧ allowed c.row c.column = true

instance (rows columns : Nat) (allowed : Nat → Nat → Bool) (c : Cell) :
    Decidable (inGrid rows columns allowed c) := by
  unfold inGrid; infer_instance

theorem mem_build_cells_iff_inGrid {rows columns : Nat} {allowed : Nat → Nat → Bool}
    {c : Cell} :
    some c ∈ build_cells rows columns allowed ↔ inGrid rows columns allowed c :=
  mem_build_cells

theorem gridBuild_attrs (rows columns : Nat) (allowed : Nat → Nat → Bool) (c : Cell) :
    (gridBuild rows columns allowed).attrs c =
      if inGrid rows columns allowed c then
        some { neighbours := neighboursFn (build_cells rows columns allowed) rows columns c
               links := ∅, distance := none }
      else none := by
  by_cases h : inGrid rows columns allowed c
  · rw [if_pos h]
    show build_attributes _ _ _ _ = _
    rw [build_attributes, if_pos (mem_build_cells_iff_inGrid.2 h)]
  · rw [if_neg h]
    show build_attributes _ _ _ _ = _
    rw [build_attributes, if_neg (fun hm => h (mem_build_cells_iff_inGrid.1 hm))]


theorem gridBuild_attrs_isSome {rows columns : Nat} {allowed : Nat → Nat → Bool} {c : Cell} :
    ((gridBuild rows columns allowed).attrs c).isSome = true ↔
      inGrid rows columns allowed c := by
  rw [gridBuild_attrs]
  by_cases h : inGrid rows columns allowed c
  · rw [if_pos h]; simpa using h
  · rw [if_neg h]; simpa using h

/-- Unfolding the neighbour map of a built grid for an unmasked cell. -/
theorem gridBuild_nbr_eq {rows columns : Nat} {allowed : Nat → Nat → Bool} {c : Cell}
    (hc : inGrid rows columns allowed c) (d : Compass) :
    (gridBuild rows columns allowed).nbr c d =
      neighboursFn (build_cells rows columns allowed) rows columns c d := by
  unfold Grid.nbr
  rw [gridBuild_attrs, if_pos hc]
  rfl

/-- What a successful neighbour lookup of a built grid means: the
bounds-checked move produced the neighbour's coordinates, and the
neighbour is an unmasked in-range cell. -/
theorem gridBuild_nbr_some {rows columns : Nat} {allowed : Nat → Nat → Bool} {A B : Cell}
    {d : Compass} (hsize : rows * columns < u32size)
    (h : (gridBuild rows columns allowed).nbr A d = some B) :
    inGrid rows columns allowed A ∧ inGrid rows columns allowed B ∧
      d.checked_neighbour rows columns A.row A.column = some (B.row, B.column) := by
  have hA : inGrid rows columns allowed A := by
    by_contra hnA
    unfold Grid.nbr at h
    rw [gridBuild_attrs, if_neg hnA] at h
    simp at h
  refine ⟨hA, ?_⟩
  rw [gridBuild_nbr_eq hA d] at h
  unfold neighboursFn at h
  cases hchk : d.checked_neighbour rows columns A.row A.column with
  | none => rw [hchk] at h; simp at h
  | some rc =>
      rw [hchk, Option.some_bind] at h
      cases hoff : Compass.offset rows columns rc.1 rc.2 with
      | none => rw [hoff] at h; simp at h
      | some i =>
          rw [hoff, Option.some_bind] at h
          have hrange : rc.1 < rows ∧ rc.2 < columns := by
            by_contra hn
            rw [offset_none hn] at hoff
            simp at hoff
          have hieq : i = rc.1 * columns + rc.2 := by
            rw [offset_eq hsize hrange.1 hrange.2] at hoff
            cases hoff; rfl
          subst hieq
          have hget := build_cells_getElem rows columns allowed rc.1 rc.2 hrange.1 hrange.2
          rw [List.getD_eq_getElem?_getD, hget] at h
          by_cases ha : allowed rc.1 rc.2 = true
          · rw [if_pos ha] at h
            simp only [Option.getD_some, Option.some.injEq] at h
            have hBe : B = ⟨rc.1, rc.2⟩ := h.symm
            subst hBe
            exact ⟨⟨hrange.1, hrange.2, ha⟩, rfl⟩
          · rw [if_neg ha] at h
            simp at h

/-- Converse direction: an in-range unmasked target produced by the
bounds-checked move is recorded in the neighbour map. -/
theorem gridBuild_nbr_of_checked {rows columns : Nat} {allowed : Nat → Nat → Bool}
    {A B : Cell} {d : Compass} (hsize : rows * columns < u32size)
    (hA : inGrid rows columns allowed A) (hB : inGrid rows columns allowed B)
    (hchk : d.checked_neighbour rows columns A.row A.column = some (B.row, B.column)) :
    (gridBuild rows columns allowed).nbr A d = some B := by
  rw [gridBuild_nbr_eq hA d]
  unfold neighboursFn
  rw [hchk, Option.some_bind, offset_eq hsize hB.1 hB.2.1, Option.some_bind]
  have hget := build_cells_getElem rows columns allowed B.row B.column hB.1 hB.2.1
  rw [List.getD_eq_getElem?_getD, hget, if_pos hB.2.2]
  rfl

/-- Geometric symmetry of the bounds-checked move: from an in-range
start, a successful move lands in range and the reversed move leads back. -/
theorem checked_neighbour_symm {rows columns row column r2 c2 : Nat} {d : Compass}
    (hrows : rows < u32size) (hcols : columns < u32size)
    (hr : row < rows) (hc : column < columns)
    (h : d.checked_neighbour rows columns row column = some (r2, c2)) :
    r2 < rows ∧ c2 < columns ∧
      d.reverse.checked_neighbour rows columns r2 c2 = some (row, column) := by
  have hu : u32size = 4294967296 := rfl
  rw [hu] at hrows hcols
  have hmr : (rows + u32size - 1) % u32size = rows - 1 := by rw [hu]; omega
  have hmc : (columns + u32size - 1) % u32size = columns - 1 := by rw [hu]; omega
  cases d with
  | north =>
      simp only [Compass.checked_neighbour, Compass.neighbour] at h
      by_cases hrow : 0 < row
      · rw [if_pos hrow] at h
        simp only [Option.some.injEq, Prod.mk.injEq] at h
        obtain ⟨h1, h2⟩ := h
        rw [hu] at h1
        have e1 : r2 = row - 1 := by omega
        subst e1
        subst h2
        refine ⟨by omega, hc, ?_⟩
        simp only [Compass.reverse, Compass.checked_neighbour, Compass.neighbour]
        rw [hmr, if_pos (by omega)]
        have hcomp : (row - 1 + 1) % u32size = row := by rw [hu]; omega
        rw [hcomp]
      · rw [if_neg hrow] at h; simp at h
  | south =>
      simp only [Compass.checked_neighbour, Compass.neighbour] at h
      rw [hmr] at h
      by_cases hrow : row < rows - 1
      · rw [if_pos hrow] at h
        simp only [Option.some.injEq, Prod.mk.injEq] at h
        obtain ⟨h1, h2⟩ := h
        rw [hu] at h1
        have e1 : r2 = row + 1 := by omega
        subst e1
        subst h2
        refine ⟨by omega, hc, ?_⟩
        simp only [Compass.reverse, Compass.checked_neighbour, Compass.neighbour]
        rw [if_pos (by omega)]
        have hcomp : (row + 1 + u32size - 1) % u32size = row := by rw [hu]; omega
        rw [hcomp]
      · rw [if_neg hrow] at h; simp at h
  | east =>
      simp only [Compass.checked_neighbour, Compass.neighbour] at h
      rw [hmc] at h
      by_cases hcol : column < columns - 1
      · rw [if_pos hcol] at h
        simp only [Option.some.injEq, Prod.mk.injEq] at h
        obtain ⟨h1, h2⟩ := h
        rw [hu] at h2
        have e2 : c2 = column + 1 := by omega
        subst e2
        subst h1
        refine ⟨hr, by omega, ?_⟩
        simp only [Compass.reverse, Compass.checked_neighbour, Compass.neighbour]
        rw [if_pos (by omega)]
        have hcomp : (column + 1 + u32size - 1) % u32size = column := by rw [hu]; omega
        rw [hcomp]
      · rw [if_neg hcol] at h; simp at h
  | west =>
      simp only [Compass.checked_neighbour, Compass.neighbour] at h
      by_cases hcol : 0 < column
      · rw [if_pos hcol] at h
        simp only [Option.some.injEq, Prod.mk.injEq] at h
        obtain ⟨h1, h2⟩ := h
        rw [hu] at h2
        have e2 : c2 = column - 1 := by omega
        subst e2
        subst h1
        refine ⟨hr, by omega, ?_⟩
        simp only [Compass.reverse, Compass.checked_neighbour, Compass.neighbour]
        rw [hmc, if_pos (by omega)]
        have hcomp : (column - 1 + 1) % u32size = column := by rw [hu]; omega
        rw [hcomp]
      · rw [if_neg hcol] at h; simp at h

/-- The neighbour maps are mutually consistent: whenever `B` is recorded
as the `d`-neighbour of `A`, `A` is recorded as the `d.reverse`-neighbour
of `B`. -/
def NbrSym (g : Grid) : Prop :=
  ∀ A B d, g.nbr A d = some B → g.nbr B d.reverse = some A

/-- Every recorded neighbour has an attribute record of its own. -/
def NbrClosed (g : Grid) : Prop :=
  ∀ A B d, g.nbr A d = some B → ((g.attrs B).isSome : Bool) = true

/-- Link symmetry: every link has an existing neighbour carrying the
reversed link. -/
def LinkSym (g : Grid) : Prop :=
  ∀ A d, d ∈ g.linkSet A → ∃ B, g.nbr A d = some B ∧ d.reverse ∈ g.linkSet B

theorem gridBuild_NbrSym (rows columns : Nat) (allowed : Nat → Nat → Bool)
    (hsize : rows * columns < u32size) : NbrSym (gridBuild rows columns allowed) := by
  intro A B d h
  obtain ⟨hA, hB, hchk⟩ := gridBuild_nbr_some hsize h
  have hAr := hA.1
  have hAc := hA.2.1
  have hrows : rows < u32size := by
    have h2 : rows * 1 ≤ rows * columns := Nat.mul_le_mul_left rows (by omega)
    calc rows = rows * 1 := by ring
      _ ≤ rows * columns := h2
      _ < u32size := hsize
  have hcols : columns < u32size := by
    have h2 : 1 * columns ≤ rows * columns := Nat.mul_le_mul_right columns (by omega)
    calc columns = 1 * columns := by ring
      _ ≤ rows * columns := h2
      _ < u32size := hsize
  obtain ⟨hr2, hc2, hback⟩ := checked_neighbour_symm hrows hcols hA.1 hA.2.1 hchk
  exact gridBuild_nbr_of_checked hsize hB hA hback

theorem gridBuild_NbrClosed (rows columns : Nat) (allowed : Nat → Nat → Bool)
    (hsize : rows * columns < u32size) : NbrClosed (gridBuild rows columns allowed) := by
  intro A B d h
  obtain ⟨hA, hB, hchk⟩ := gridBuild_nbr_some hsize h
  exact gridBuild_attrs_isSome.2 hB

theorem gridBuild_LinkSym (rows columns : Nat) (allowed : Nat → Nat → Bool) :
    LinkSym (gridBuild rows columns allowed) := by
  intro A d hmem
  exfalso
  unfold Grid.linkSet at hmem
  rw [gridBuild_attrs] at hmem
  by_cases h : inGrid rows columns allowed A
  · rw [if_pos h] at hmem
    simp at hmem
  · rw [if_neg h] at hmem
    simp at hmem

theorem updateAttrs_attrs (g : Grid) (cell : Cell) (f : Attributes → Attributes) (x : Cell) :
    (g.updateAttrs cell f).attrs x =
      if x = cell then (g.attrs cell).map f else g.attrs x := rfl

theorem updateAttrs_rows (g : Grid) (cell : Cell) (f : Attributes → Attributes) :
    (g.updateAttrs cell f).rows = g.rows := rfl

theorem updateAttrs_columns (g : Grid) (cell : Cell) (f : Attributes → Attributes) :
    (g.updateAttrs cell f).columns = g.columns := rfl

theorem updateAttrs_cells (g : Grid) (cell : Cell) (f : Attributes → Attributes) :
    (g.updateAttrs cell f).cells = g.cells := rfl

theorem updateAttrs_isSome (g : Grid) (cell : Cell) (f : Attributes → Attributes) (x : Cell) :
    ((g.updateAttrs cell f).attrs x).isSome = (g.attrs x).isSome := by
  rw [updateAttrs_attrs]
  by_cases h : x = cell
  · rw [if_pos h, h]
    cases g.attrs cell <;> rfl
  · rw [if_neg h]

/-- Updates that do not touch the neighbour component leave all
neighbour lookups unchanged. -/
theorem updateAttrs_nbr (g : Grid) (cell : Cell) (f : Attributes → Attributes)
    (hf : ∀ a, (f a).neighbours = a.neighbours) (x : Cell) (d : Compass) :
    (g.updateAttrs cell f).nbr x d = g.nbr x d := by
  unfold Grid.nbr
  rw [updateAttrs_attrs]
  by_cases h : x = cell
  · rw [if_pos h, h]
    cases g.attrs cell with
    | none => rfl
    | some a => simp [hf a]
  · rw [if_neg h]

theorem updateAttrs_linkSet_self (g : Grid) (cell : Cell) (f : Attributes → Attributes)
    (a : Attributes) (ha : g.attrs cell = some a) :
    (g.updateAttrs cell f).linkSet cell = (f a).links := by
  unfold Grid.linkSet
  rw [updateAttrs_attrs, if_pos rfl, ha]
  rfl

theorem updateAttrs_linkSet_ne (g : Grid) (cell : Cell) (f : Attributes → Attributes)
    (x : Cell) (hx : x ≠ cell) :
    (g.updateAttrs cell f).linkSet x = g.linkSet x := by
  unfold Grid.linkSet
  rw [updateAttrs_attrs, if_neg hx]

theorem updateAttrs_linkSet_none (g : Grid) (cell : Cell) (f : Attributes → Attributes)
    (ha : g.attrs cell = none) (x : Cell) :
    (g.updateAttrs cell f).linkSet x = g.linkSet x := by
  unfold Grid.linkSet
  rw [updateAttrs_attrs]
  by_cases h : x = cell
  · rw [if_pos h, h, ha]; rfl
  · rw [if_neg h]

/-- Link-set shape of `addLinkAt`: membership after inserting `d` at
`cell`. -/
theorem addLinkAt_mem (g : Grid) (cell : Cell) (d : Compass) (x : Cell) (e : Compass)
    (hc : (g.attrs cell).isSome = true) :
    (e ∈ (g.addLinkAt cell d).linkSet x ↔ e ∈ g.linkSet x ∨ (x = cell ∧ e = d)) := by
  obtain ⟨a, ha⟩ := Option.isSome_iff_exists.1 hc
  by_cases hx : x = cell
  · subst hx
    rw [Grid.addLinkAt, updateAttrs_linkSet_self g x _ a ha]
    unfold Grid.linkSet
    rw [ha]
    simp only [Finset.mem_insert]
    tauto
  · rw [Grid.addLinkAt, updateAttrs_linkSet_ne g cell _ x hx]
    tauto

/-- Link-set shape of `removeLinkAt`: membership after erasing `d` at
`cell`. -/
theorem removeLinkAt_mem (g : Grid) (cell : Cell) (d : Compass) (x : Cell) (e : Compass)
    (hc : (g.attrs cell).isSome = true) :
    (e ∈ (g.removeLinkAt cell d).linkSet x ↔ e ∈ g.linkSet x ∧ ¬(x = cell ∧ e = d)) := by
  obtain ⟨a, ha⟩ := Option.isSome_iff_exists.1 hc
  by_cases hx : x = cell
  · subst hx
    rw [Grid.removeLinkAt, updateAttrs_linkSet_self g x _ a ha]
    unfold Grid.linkSet
    rw [ha]
    simp only [Finset.mem_erase]
    constructor
    · rintro ⟨hne, hmem⟩
      exact ⟨hmem, by tauto⟩
    · rintro ⟨hmem, hne⟩
      exact ⟨by tauto, hmem⟩
  · rw [Grid.removeLinkAt, updateAttrs_linkSet_ne g cell _ x hx]
    tauto

theorem addLinkAt_isSome (g : Grid) (cell : Cell) (d : Compass) (x : Cell) :
    ((g.addLinkAt cell d).attrs x).isSome = (g.attrs x).isSome :=
  updateAttrs_isSome g cell _ x

theorem removeLinkAt_isSome (g : Grid) (cell : Cell) (d : Compass) (x : Cell) :
    ((g.removeLinkAt cell d).attrs x).isSome = (g.attrs x).isSome :=
  updateAttrs_isSome g cell _ x

theorem addLinkAt_nbr (g : Grid) (cell : Cell) (d : Compass) (x : Cell) (e : Compass) :
    (g.addLinkAt cell d).nbr x e = g.nbr x e := by
  unfold Grid.addLinkAt
  exact updateAttrs_nbr g cell (fun a => { a with links := insert d a.links }) (fun _ => rfl) x e

theorem removeLinkAt_nbr (g : Grid) (cell : Cell) (d : Compass) (x : Cell) (e : Compass) :
    (g.removeLinkAt cell d).nbr x e = g.nbr x e := by
  unfold Grid.removeLinkAt
  exact updateAttrs_nbr g cell (fun a => { a with links := a.links.erase d }) (fun _ => rfl) x e

theorem link_cell_none (g : Grid) (cell : Cell) (d : Compass)
    (h : g.nbr cell d = none) : g.link_cell cell d = (g, none) := by
  unfold Grid.link_cell
  rw [h]

theorem link_cell_snd (g : Grid) (cell : Cell) (d : Compass) (t : Cell)
    (h : g.nbr cell d = some t) : (g.link_cell cell d).2 = some t := by
  unfold Grid.link_cell
  rw [h]

theorem unlink_cell_none (g : Grid) (cell : Cell) (d : Compass)
    (h : g.nbr cell d = none) : g.unlink_cell cell d = (g, none) := by
  unfold Grid.unlink_cell
  rw [h]

theorem unlink_cell_snd (g : Grid) (cell : Cell) (d : Compass) (t : Cell)
    (h : g.nbr cell d = some t) : (g.unlink_cell cell d).2 = some t := by
  unfold Grid.unlink_cell
  rw [h]

theorem nbr_isSome_of_some {g : Grid} {cell t : Cell} {d : Compass}
    (h : g.nbr cell d = some t) : ((g.attrs cell).isSome : Bool) = true := by
  unfold Grid.nbr at h
  cases hc : g.attrs cell with
  | none => rw [hc] at h; simp at h
  | some a => rfl

/-- Membership in the link sets after a successful `link_cell`: exactly
the old links plus `d` at the cell and `d.reverse` at the neighbour. -/
theorem link_cell_mem (g : Grid) (cell : Cell) (d : Compass) (t : Cell)
    (hn : g.nbr cell d = some t) (ht : ((g.attrs t).isSome : Bool) = true)
    (x : Cell) (e : Compass) :
    (e ∈ (g.link_cell cell d).1.linkSet x ↔
      e ∈ g.linkSet x ∨ (x = cell ∧ e = d) ∨ (x = t ∧ e = d.reverse)) := by
  have hcell : ((g.attrs cell).isSome : Bool) = true := nbr_isSome_of_some hn
  unfold Grid.link_cell
  rw [hn]
  have ht1 : (((g.addLinkAt cell d).attrs t).isSome : Bool) = true := by
    rw [addLinkAt_isSome]; exact ht
  rw [addLinkAt_mem _ t d.reverse x e ht1, addLinkAt_mem g cell d x e hcell]
  tauto

/-- Membership in the link sets after a successful `unlink_cell`: the
old links minus `d` at the cell and minus `d.reverse` at the neighbour. -/
theorem unlink_cell_mem (g : Grid) (cell : Cell) (d : Compass) (t : Cell)
    (hn : g.nbr cell d = some t) (ht : ((g.attrs t).isSome : Bool) = true)
    (x : Cell) (e : Compass) :
    (e ∈ (g.unlink_cell cell d).1.linkSet x ↔
      e ∈ g.linkSet x ∧ ¬(x = cell ∧ e = d) ∧ ¬(x = t ∧ e = d.reverse)) := by
  have hcell : ((g.attrs cell).isSome : Bool) = true := nbr_isSome_of_some hn
  unfold Grid.unlink_cell
  rw [hn]
  have ht1 : (((g.removeLinkAt cell d).attrs t).isSome : Bool) = true := by
    rw [removeLinkAt_isSome]; exact ht
  rw [removeLinkAt_mem _ t d.reverse x e ht1, removeLinkAt_mem g cell d x e hcell]
  tauto

theorem link_cell_nbr (g : Grid) (cell : Cell) (d : Compass) (x : Cell) (e : Compass) :
    (g.link_cell cell d).1.nbr x e = g.nbr x e := by
  unfold Grid.link_cell
  cases hn : g.nbr cell d with
  | none => rfl
  | some t => simp only []; rw [addLinkAt_nbr, addLinkAt_nbr]

theorem unlink_cell_nbr (g : Grid) (cell : Cell) (d : Compass) (x : Cell) (e : Compass) :
    (g.unlink_cell cell d).1.nbr x e = g.nbr x e := by
  unfold Grid.unlink_cell
  cases hn : g.nbr cell d with
  | none => rfl
  | some t => simp only []; rw [removeLinkAt_nbr, removeLinkAt_nbr]

theorem link_cell_isSome (g : Grid) (cell : Cell) (d : Compass) (x : Cell) :
    ((g.link_cell cell d).1.attrs x).isSome = (g.attrs x).isSome := by
  unfold Grid.link_cell
  cases hn : g.nbr cell d with
  | none => rfl
  | some t => simp only []; rw [addLinkAt_isSome, addLinkAt_isSome]

theorem unlink_cell_isSome (g : Grid) (cell : Cell) (d : Compass) (x : Cell) :
    ((g.unlink_cell cell d).1.attrs x).isSome = (g.attrs x).isSome := by
  unfold Grid.unlink_cell
  cases hn : g.nbr cell d with
  | none => rfl
  | some t => simp only []; rw [removeLinkAt_isSome, removeLinkAt_isSome]

theorem link_cell_cells (g : Grid) (cell : Cell) (d : Compass) :
    (g.link_cell cell d).1.cells = g.cells := by
  unfold Grid.link_cell
  cases hn : g.nbr cell d <;> rfl

theorem unlink_cell_cells (g : Grid) (cell : Cell) (d : Compass) :
    (g.unlink_cell cell d).1.cells = g.cells := by
  unfold Grid.unlink_cell
  cases hn : g.nbr cell d <;> rfl

theorem link_cell_rows (g : Grid) (cell : Cell) (d : Compass) :
    (g.link_cell cell d).1.rows = g.rows := by
  unfold Grid.link_cell
  cases hn : g.nbr cell d <;> rfl

theorem unlink_cell_rows (g : Grid) (cell : Cell) (d : Compass) :
    (g.unlink_cell cell d).1.rows = g.rows := by
  unfold Grid.unlink_cell
  cases hn : g.nbr cell d <;> rfl

theorem link_cell_columns (g : Grid) (cell : Cell) (d : Compass) :
    (g.link_cell cell d).1.columns = g.columns := by
  unfold Grid.link_cell
  cases hn : g.nbr cell d <;> rfl

theorem unlink_cell_columns (g : Grid) (cell : Cell) (d : Compass) :
    (g.unlink_cell cell d).1.columns = g.columns := by
  unfold Grid.unlink_cell
  cases hn : g.nbr cell d <;> rfl

theorem applyOp_nbr (g : Grid) (op : Op) (x : Cell) (e : Compass) :
    (g.applyOp op).nbr x e = g.nbr x e := by
  cases op with
  | link cell d => exact link_cell_nbr g cell d x e
  | unlink cell d => exact unlink_cell_nbr g cell d x e

theorem applyOp_isSome (g : Grid) (op : Op) (x : Cell) :
    ((g.applyOp op).attrs x).isSome = (g.attrs x).isSome := by
  cases op with
  | link cell d => exact link_cell_isSome g cell d x
  | unlink cell d => exact unlink_cell_isSome g cell d x

theorem applyOp_cells (g : Grid) (op : Op) : (g.applyOp op).cells = g.cells := by
  cases op with
  | link cell d => exact link_cell_cells g cell d
  | unlink cell d => exact unlink_cell_cells g cell d

theorem applyOp_rows (g : Grid) (op : Op) : (g.applyOp op).rows = g.rows := by
  cases op with
  | link cell d => exact link_cell_rows g cell d
  | unlink cell d => exact unlink_cell_rows g cell d

theorem applyOp_columns (g : Grid) (op : Op) : (g.applyOp op).columns = g.columns := by
  cases op with
  | link cell d => exact link_cell_columns g cell d
  | unlink cell d => exact unlink_cell_columns g cell d

theorem NbrSym_applyOp {g : Grid} (h : NbrSym g) (op : Op) : NbrSym (g.applyOp op) := by
  intro A B d hn
  rw [applyOp_nbr] at hn
  rw [applyOp_nbr]
  exact h A B d hn

theorem NbrClosed_applyOp {g : Grid} (h : NbrClosed g) (op : Op) : NbrClosed (g.applyOp op) := by
  intro A B d hn
  rw [applyOp_nbr] at hn
  rw [applyOp_isSome]
  exact h A B d hn

theorem LinkSym_applyOp {g : Grid} (hns : NbrSym g) (hnc : NbrClosed g) (hls : LinkSym g)
    (op : Op) : LinkSym (g.applyOp op) := by
  cases op with
  | link cell dd =>
      intro A d0 hmem
      show ∃ B, (g.link_cell cell dd).1.nbr A d0 = some B ∧
        d0.reverse ∈ (g.link_cell cell dd).1.linkSet B
      cases hn : g.nbr cell dd with
      | none =>
          have heq : (g.link_cell cell dd).1 = g := by rw [link_cell_none g cell dd hn]
          have hmem2 : d0 ∈ (g.link_cell cell dd).1.linkSet A := hmem
          rw [heq] at hmem2
          rw [heq]
          exact hls A d0 hmem2
      | some t =>
          have ht : ((g.attrs t).isSome : Bool) = true := hnc cell t dd hn
          have hmem2 := (link_cell_mem g cell dd t hn ht A d0).1 hmem
          rcases hmem2 with hold | ⟨hA, hd⟩ | ⟨hA, hd⟩
          · obtain ⟨B, hB, hrev⟩ := hls A d0 hold
            refine ⟨B, ?_, ?_⟩
            · rw [link_cell_nbr]; exact hB
            · exact (link_cell_mem g cell dd t hn ht B d0.reverse).2 (Or.inl hrev)
          · refine ⟨t, ?_, ?_⟩
            · rw [link_cell_nbr, hA, hd]; exact hn
            · exact (link_cell_mem g cell dd t hn ht t d0.reverse).2
                (Or.inr (Or.inr ⟨rfl, congrArg Compass.reverse hd⟩))
          · refine ⟨cell, ?_, ?_⟩
            · rw [link_cell_nbr, hA, hd]; exact hns cell t dd hn
            · exact (link_cell_mem g cell dd t hn ht cell d0.reverse).2
                (Or.inr (Or.inl ⟨rfl, by rw [hd, Compass.reverse_reverse]⟩))
  | unlink cell dd =>
      intro A d0 hmem
      show ∃ B, (g.unlink_cell cell dd).1.nbr A d0 = some B ∧
        d0.reverse ∈ (g.unlink_cell cell dd).1.linkSet B
      cases hn : g.nbr cell dd with
      | none =>
          have heq : (g.unlink_cell cell dd).1 = g := by rw [unlink_cell_none g cell dd hn]
          have hmem2 : d0 ∈ (g.unlink_cell cell dd).1.linkSet A := hmem
          rw [heq] at hmem2
          rw [heq]
          exact hls A d0 hmem2
      | some t =>
          have ht : ((g.attrs t).isSome : Bool) = true := hnc cell t dd hn
          obtain ⟨hold, hnot1, hnot2⟩ := (unlink_cell_mem g cell dd t hn ht A d0).1 hmem
          obtain ⟨B, hB, hrev⟩ := hls A d0 hold
          refine ⟨B, ?_, ?_⟩
          · rw [unlink_cell_nbr]; exact hB
          · refine (unlink_cell_mem g cell dd t hn ht B d0.reverse).2 ⟨hrev, ?_, ?_⟩
            · rintro ⟨hBc, hrd⟩
              have hd0 : d0 = dd.reverse := by
                rw [← hrd, Compass.reverse_reverse]
              have hB2 : g.nbr A dd.reverse = some cell := by
                rw [← hd0, ← hBc]; exact hB
              have h1 := hns A cell dd.reverse hB2
              rw [Compass.reverse_reverse] at h1
              have hAt : A = t := by
                rw [hn] at h1
                exact (Option.some_inj.1 h1).symm
              exact hnot2 ⟨hAt, hd0⟩
            · rintro ⟨hBt, hrd⟩
              have hd0 : d0 = dd := by
                have h3 := congrArg Compass.reverse hrd
                rwa [Compass.reverse_reverse, Compass.reverse_reverse] at h3
              have hB2 : g.nbr A dd = some t := by
                rw [← hd0, ← hBt]; exact hB
              have h1 := hns cell t dd hn
              have h2 := hns A t dd hB2
              rw [h1] at h2
              have hAc : A = cell := (Option.some_inj.1 h2).symm
              exact hnot1 ⟨hAc, hd0⟩

theorem applyOps_nbr (g : Grid) (ops : List Op) (x : Cell) (e : Compass) :
    (g.applyOps ops).nbr x e = g.nbr x e := by
  induction ops generalizing g with
  | nil => rfl
  | cons op rest ih =>
      show ((g.applyOp op).applyOps rest).nbr x e = g.nbr x e
      rw [ih (g.applyOp op), applyOp_nbr]

theorem applyOps_isSome (g : Grid) (ops : List Op) (x : Cell) :
    ((g.applyOps ops).attrs x).isSome = (g.attrs x).isSome := by
  induction ops generalizing g with
  | nil => rfl
  | cons op rest ih =>
      show (((g.applyOp op).applyOps rest).attrs x).isSome = _
      rw [ih (g.applyOp op), applyOp_isSome]

theorem applyOps_cells (g : Grid) (ops : List Op) :
    (g.applyOps ops).cells = g.cells := by
  induction ops generalizing g with
  | nil => rfl
  | cons op rest ih =>
      show ((g.applyOp op).applyOps rest).cells = _
      rw [ih (g.applyOp op), applyOp_cells]

theorem applyOps_rows (g : Grid) (ops : List Op) :
    (g.applyOps ops).rows = g.rows := by
  induction ops generalizing g with
  | nil => rfl
  | cons op rest ih =>
      show ((g.applyOp op).applyOps rest).rows = _
      rw [ih (g.applyOp op), applyOp_rows]

theorem applyOps_columns (g : Grid) (ops : List Op) :
    (g.applyOps ops).columns = g.columns := by
  induction ops generalizing g with
  | nil => rfl
  | cons op rest ih =>
      show ((g.applyOp op).applyOps rest).columns = _
      rw [ih (g.applyOp op), applyOp_columns]

/-- All three structural invariants survive any sequence of link and
unlink operations. -/
theorem applyOps_invariants {g : Grid} (hns : NbrSym g) (hnc : NbrClosed g)
    (hls : LinkSym g) (ops : List Op) :
    NbrSym (g.applyOps ops) ∧ NbrClosed (g.applyOps ops) ∧ LinkSym (g.applyOps ops) := by
  induction ops generalizing g with
  | nil => exact ⟨hns, hnc, hls⟩
  | cons op rest ih =>
      show NbrSym ((g.applyOp op).applyOps rest) ∧ _ ∧ _
      exact ih (NbrSym_applyOp hns op) (NbrClosed_applyOp hnc op)
        (LinkSym_applyOp hns hnc hls op)

/-- C1: link symmetry is an invariant of every maze state reachable by
construction followed by any sequence of `link_cell` / `unlink_cell`
operations: a direction is in a cell's link set exactly when the
neighbour in that direction exists and carries the reversed direction in
its own link set. -/
theorem c1_link_symmetry (rows columns : Nat) (allowed : Nat → Nat → Bool) (ops : List Op)
    (hsize : rows * columns < u32size) (A : Cell) (d : Compass) :
    (d ∈ ((gridBuild rows columns allowed).applyOps ops).linkSet A ↔
      ∃ B, ((gridBuild rows columns allowed).applyOps ops).nbr A d = some B ∧
        d.reverse ∈ ((gridBuild rows columns allowed).applyOps ops).linkSet B) := by
  obtain ⟨hns, hnc, hls⟩ := applyOps_invariants (gridBuild_NbrSym rows columns allowed hsize)
    (gridBuild_NbrClosed rows columns allowed hsize)
    (gridBuild_LinkSym rows columns allowed) ops
  constructor
  · intro hmem
    exact hls A d hmem
  · rintro ⟨B, hB, hrev⟩
    obtain ⟨A2, hA2, hd2⟩ := hls B d.reverse hrev
    have hA2eq : A2 = A := by
      have h1 := hns A B d hB
      rw [h1] at hA2
      exact (Option.some_inj.1 hA2).symm
    rw [hA2eq, Compass.reverse_reverse] at hd2
    exact hd2

theorem c1_link_symmetry_witness :
    2 * 2 < u32size ∧
      (Compass.east ∈ ((gridBuild 2 2 (fun _ _ => true)).applyOps
          [Op.link ⟨0, 0⟩ Compass.east]).linkSet ⟨0, 0⟩ ↔
        ∃ B, ((gridBuild 2 2 (fun _ _ => true)).applyOps
            [Op.link ⟨0, 0⟩ Compass.east]).nbr ⟨0, 0⟩ Compass.east = some B ∧
          Compass.east.reverse ∈ ((gridBuild 2 2 (fun _ _ => true)).applyOps
            [Op.link ⟨0, 0⟩ Compass.east]).linkSet B) :=
  ⟨by decide, c1_link_symmetry 2 2 (fun _ _ => true) [Op.link ⟨0, 0⟩ Compass.east]
    (by decide) ⟨0, 0⟩ Compass.east⟩

/-- C2: the `link_cell` contract.  If the neighbour map of an unmasked
cell has the direction, linking inserts the direction at the cell and
the reversed direction at the neighbour (changing nothing else) and
returns the neighbour; otherwise it changes nothing and returns `none`. -/
theorem c2_link_cell_contract (g : Grid) (cell : Cell) (d : Compass)
    (_hcell : ((g.attrs cell).isSome : Bool) = true) :
    (∀ t, g.nbr cell d = some t → ((g.attrs t).isSome : Bool) = true →
      ((g.link_cell cell d).2 = some t ∧
        ∀ x e, (e ∈ (g.link_cell cell d).1.linkSet x ↔
          e ∈ g.linkSet x ∨ (x = cell ∧ e = d) ∨ (x = t ∧ e = d.reverse)))) ∧
    (g.nbr cell d = none → g.link_cell cell d = (g, none)) := by
  constructor
  · intro t hn ht
    exact ⟨link_cell_snd g cell d t hn, link_cell_mem g cell d t hn ht⟩
  · intro hn
    exact link_cell_none g cell d hn

theorem c2_link_cell_contract_witness :
    (((gridBuild 2 2 (fun _ _ => true)).attrs ⟨0, 0⟩).isSome : Bool) = true ∧
      ((∀ t, (gridBuild 2 2 (fun _ _ => true)).nbr ⟨0, 0⟩ Compass.east = some t →
          (((gridBuild 2 2 (fun _ _ => true)).attrs t).isSome : Bool) = true →
        (((gridBuild 2 2 (fun _ _ => true)).link_cell ⟨0, 0⟩ Compass.east).2 = some t ∧
          ∀ x e, (e ∈ ((gridBuild 2 2 (fun _ _ => true)).link_cell
              ⟨0, 0⟩ Compass.east).1.linkSet x ↔
            e ∈ (gridBuild 2 2 (fun _ _ => true)).linkSet x ∨
              (x = ⟨0, 0⟩ ∧ e = Compass.east) ∨ (x = t ∧ e = Compass.east.reverse)))) ∧
      ((gridBuild 2 2 (fun _ _ => true)).nbr ⟨0, 0⟩ Compass.east = none →
        (gridBuild 2 2 (fun _ _ => true)).link_cell ⟨0, 0⟩ Compass.east =
          (gridBuild 2 2 (fun _ _ => true), none))) :=
  ⟨by decide, c2_link_cell_contract (gridBuild 2 2 (fun _ _ => true)) ⟨0, 0⟩ Compass.east
    (by decide)⟩

/-- C10: `link_cell` is idempotent.  With an existing neighbour, a second
`link_cell` call returns the same neighbour and leaves every link set
exactly as after the first call. -/
theorem c10_link_cell_idempotent (g : Grid) (cell : Cell) (d : Compass) (t : Cell)
    (hn : g.nbr cell d = some t) (ht : ((g.attrs t).isSome : Bool) = true) :
    (((g.link_cell cell d).1.link_cell cell d).2 = some t ∧
      ∀ x, ((g.link_cell cell d).1.link_cell cell d).1.linkSet x =
        (g.link_cell cell d).1.linkSet x) := by
  have hn1 : (g.link_cell cell d).1.nbr cell d = some t := by
    rw [link_cell_nbr]; exact hn
  have ht1 : (((g.link_cell cell d).1.attrs t).isSome : Bool) = true := by
    rw [link_cell_isSome]; exact ht
  refine ⟨link_cell_snd _ cell d t hn1, fun x => ?_⟩
  apply Finset.ext
  intro e
  rw [link_cell_mem _ cell d t hn1 ht1 x e]
  constructor
  · rintro (h | ⟨hx, he⟩ | ⟨hx, he⟩)
    · exact h
    · exact (link_cell_mem g cell d t hn ht x e).2 (Or.inr (Or.inl ⟨hx, he⟩))
    · exact (link_cell_mem g cell d t hn ht x e).2 (Or.inr (Or.inr ⟨hx, he⟩))
  · exact Or.inl

theorem c10_link_cell_idempotent_witness :
    ((gridBuild 2 2 (fun _ _ => true)).nbr ⟨1, 1⟩ Compass.north = some ⟨0, 1⟩ ∧
      (((gridBuild 2 2 (fun _ _ => true)).attrs ⟨0, 1⟩).isSome : Bool) = true) ∧
      ((((gridBuild 2 2 (fun _ _ => true)).link_cell ⟨1, 1⟩
          Compass.north).1.link_cell ⟨1, 1⟩ Compass.north).2 = some ⟨0, 1⟩ ∧
        ∀ x, (((gridBuild 2 2 (fun _ _ => true)).link_cell ⟨1, 1⟩
            Compass.north).1.link_cell ⟨1, 1⟩ Compass.north).1.linkSet x =
          ((gridBuild 2 2 (fun _ _ => true)).link_cell ⟨1, 1⟩ Compass.north).1.linkSet x) :=
  ⟨⟨by decide, by decide⟩,
    c10_link_cell_idempotent (gridBuild 2 2 (fun _ _ => true)) ⟨1, 1⟩ Compass.north ⟨0, 1⟩
      (by decide) (by decide)⟩

/-- Whether the reversed direction is absent from the link set of the
`d`-neighbour (trivially so when there is no neighbour). -/
def revLinkFreeB (g : Grid) (cell : Cell) (d : Compass) : Bool :=
  match g.nbr cell d with
  | some t => decide (d.reverse ∉ g.linkSet t)
  | none => true

/-- Whether the `d`-neighbour, when present, has an attribute record. -/
def nbrAttrsB (g : Grid) (cell : Cell) (d : Compass) : Bool :=
  match g.nbr cell d with
  | some t => (g.attrs t).isSome
  | none => true

/-- C7 (amended): `link_cell` followed by `unlink_cell` with the same
direction restores every link set exactly, provided the passage was not
already carved (the direction absent at the cell and its reverse absent
at the neighbour). -/
theorem c7_link_unlink_restores (g : Grid) (cell : Cell) (d : Compass)
    (hfree : d ∉ g.linkSet cell)
    (hrevfree : revLinkFreeB g cell d = true)
    (hts : nbrAttrsB g cell d = true) :
    ∀ x, ((g.link_cell cell d).1.unlink_cell cell d).1.linkSet x = g.linkSet x := by
  intro x
  cases hn : g.nbr cell d with
  | none =>
      rw [link_cell_none g cell d hn]
      simp only
      rw [unlink_cell_none g cell d hn]
  | some t =>
      unfold revLinkFreeB at hrevfree
      rw [hn] at hrevfree
      have hrev : d.reverse ∉ g.linkSet t := of_decide_eq_true hrevfree
      unfold nbrAttrsB at hts
      rw [hn] at hts
      have hn1 : (g.link_cell cell d).1.nbr cell d = some t := by
        rw [link_cell_nbr]; exact hn
      have ht1 : (((g.link_cell cell d).1.attrs t).isSome : Bool) = true := by
        rw [link_cell_isSome]; exact hts
      apply Finset.ext
      intro e
      rw [unlink_cell_mem _ cell d t hn1 ht1 x e,
        link_cell_mem g cell d t hn hts x e]
      constructor
      · rintro ⟨h | ⟨hx, he⟩ | ⟨hx, he⟩, hnot1, hnot2⟩
        · exact h
        · exact absurd ⟨hx, he⟩ hnot1
        · exact absurd ⟨hx, he⟩ hnot2
      · intro h
        refine ⟨Or.inl h, ?_, ?_⟩
        · rintro ⟨hx, he⟩
          subst hx; subst he
          exact hfree h
        · rintro ⟨hx, he⟩
          subst hx; subst he
          exact hrev h

theorem c7_link_unlink_restores_witness :
    (Compass.east ∉ (gridBuild 2 2 (fun _ _ => true)).linkSet ⟨0, 0⟩ ∧
      revLinkFreeB (gridBuild 2 2 (fun _ _ => true)) ⟨0, 0⟩ Compass.east = true ∧
      nbrAttrsB (gridBuild 2 2 (fun _ _ => true)) ⟨0, 0⟩ Compass.east = true) ∧
      ∀ x, (((gridBuild 2 2 (fun _ _ => true)).link_cell ⟨0, 0⟩
          Compass.east).1.unlink_cell ⟨0, 0⟩ Compass.east).1.linkSet x =
        (gridBuild 2 2 (fun _ _ => true)).linkSet x :=
  ⟨⟨by decide, by decide, by decide⟩,
    c7_link_unlink_restores (gridBuild 2 2 (fun _ _ => true)) ⟨0, 0⟩ Compass.east
      (by decide) (by decide) (by decide)⟩

/-- A maze state in which the east passage out of the origin is already
carved. -/
def gAlreadyLinked : Grid :=
  ((gridBuild 2 2 (fun _ _ => true)).link_cell ⟨0, 0⟩ Compass.east).1

/-- C7 counterexample: on a maze where the passage is already carved,
`link_cell` followed by `unlink_cell` does not restore the previous link
sets — the pre-existing link is lost. -/
theorem c7_counterexample :
    Compass.east ∈ gAlreadyLinked.linkSet ⟨0, 0⟩ ∧
      Compass.east ∉ ((gAlreadyLinked.link_cell ⟨0, 0⟩
        Compass.east).1.unlink_cell ⟨0, 0⟩ Compass.east).1.linkSet ⟨0, 0⟩ := by
  refine ⟨by decide, by decide⟩

/-- Mathematical one-step move in a compass direction, over the
integers (spec-side definition, used to state what "the result would
leave the rectangle" means). -/
def Compass.moveZ : Compass → Nat → Nat → Int × Int
  | Compass.north, row, column => ((row : Int) - 1, (column : Int))
  | Compass.east, row, column => ((row : Int), (column : Int) + 1)
  | Compass.south, row, column => ((row : Int) + 1, (column : Int))
  | Compass.west, row, column => ((row : Int), (column : Int) - 1)

/-- Whether an integer coordinate pair lies inside the rows-by-columns
rectangle. -/
def inRectZ (rows columns : Nat) (p : Int × Int) : Prop :=
  0 ≤ p.1 ∧ p.1 < (rows : Int) ∧ 0 ≤ p.2 ∧ p.2 < (columns : Int)

instance (rows columns : Nat) (p : Int × Int) : Decidable (inRectZ rows columns p) := by
  unfold inRectZ; infer_instance

/-- C6 (amended): for an in-range starting coordinate, `checked_neighbour`
returns the moved coordinates exactly when the move stays inside the
rectangle and `none` when it would leave it.  (For out-of-range starting
coordinates the function only validates the moved bound; see the
counterexample.) -/
theorem c6_checked_neighbour (d : Compass) (rows columns row column : Nat)
    (hr : row < rows) (hc : column < columns)
    (hrows : rows < u32size) (hcols : columns < u32size) :
    d.checked_neighbour rows columns row column =
      if inRectZ rows columns (d.moveZ row column) then
        some ((d.moveZ row column).1.toNat, (d.moveZ row column).2.toNat)
      else none := by
  have hu : u32size = 4294967296 := rfl
  cases d with
  | north =>
      simp only [Compass.checked_neighbour, Compass.neighbour, Compass.moveZ]
      by_cases hrow : 0 < row
      · rw [if_pos hrow,
          if_pos (show inRectZ rows columns ((row : Int) - 1, (column : Int)) from
            ⟨by omega, by omega, by omega, by omega⟩)]
        have h1 : (row + u32size - 1) % u32size = ((row : Int) - 1).toNat := by
          rw [hu]; omega
        have h2 : ((column : Int)).toNat = column := by omega
        rw [h1]
        simp only [h2]
      · rw [if_neg hrow, if_neg (fun h => absurd h.1 (by omega))]
  | south =>
      simp only [Compass.checked_neighbour, Compass.neighbour, Compass.moveZ]
      have hmr : (rows + u32size - 1) % u32size = rows - 1 := by rw [hu]; omega
      rw [hmr]
      by_cases hrow : row < rows - 1
      · rw [if_pos hrow,
          if_pos (show inRectZ rows columns ((row : Int) + 1, (column : Int)) from
            ⟨by omega, by omega, by omega, by omega⟩)]
        have h1 : (row + 1) % u32size = ((row : Int) + 1).toNat := by
          rw [hu]; omega
        have h2 : ((column : Int)).toNat = column := by omega
        rw [h1]
        simp only [h2]
      · rw [if_neg hrow, if_neg (fun h => absurd h.2.1 (by omega))]
  | east =>
      simp only [Compass.checked_neighbour, Compass.neighbour, Compass.moveZ]
      have hmc : (columns + u32size - 1) % u32size = columns - 1 := by rw [hu]; omega
      rw [hmc]
      by_cases hcol : column < columns - 1
      · rw [if_pos hcol,
          if_pos (show inRectZ rows columns ((row : Int), (column : Int) + 1) from
            ⟨by omega, by omega, by omega, by omega⟩)]
        have h1 : (column + 1) % u32size = ((column : Int) + 1).toNat := by
          rw [hu]; omega
        have h2 : ((row : Int)).toNat = row := by omega
        rw [h1]
        simp only [h2]
      · rw [if_neg hcol, if_neg (fun h => absurd h.2.2.2 (by omega))]
  | west =>
      simp only [Compass.checked_neighbour, Compass.neighbour, Compass.moveZ]
      by_cases hcol : 0 < column
      · rw [if_pos hcol,
          if_pos (show inRectZ rows columns ((row : Int), (column : Int) - 1) from
            ⟨by omega, by omega, by omega, by omega⟩)]
        have h1 : (column + u32size - 1) % u32size = ((column : Int) - 1).toNat := by
          rw [hu]; omega
        have h2 : ((row : Int)).toNat = row := by omega
        rw [h1]
        simp only [h2]
      · rw [if_neg hcol, if_neg (fun h => absurd h.2.2.1 (by omega))]

theorem c6_checked_neighbour_witness :
    (1 < 3 ∧ 1 < 3 ∧ 3 < u32size ∧ 3 < u32size) ∧
      Compass.north.checked_neighbour 3 3 1 1 =
        (if inRectZ 3 3 (Compass.north.moveZ 1 1) then
          some ((Compass.north.moveZ 1 1).1.toNat, (Compass.north.moveZ 1 1).2.toNat)
        else none) :=
  ⟨⟨by decide, by decide, by decide, by decide⟩,
    c6_checked_neighbour Compass.north 3 3 1 1 (by decide) (by decide) (by decide) (by decide)⟩

/-- C6 counterexample: from the out-of-range start (0, 5) in a 3x3
rectangle, moving south yields (1, 5), which leaves the rectangle, yet
`checked_neighbour` returns it as `some` instead of `none` — the guard
only validates the bound of the moved axis. -/
theorem c6_counterexample :
    Compass.south.checked_neighbour 3 3 0 5 = some (1, 5) ∧
      ¬ inRectZ 3 3 (Compass.south.moveZ 0 5) := by
  refine ⟨by decide, by decide⟩

/-- The solver result (`Distances` in `src/solver/mod.rs`): the
cell-to-distance map produced by a solve.  (The derived
distance-to-cell-list index built by `build_distances` is a pure
function of this map and is not needed by the claims below.) -/
structure Distances where
  cells : List (Cell × Nat)

/-- Constructor `Distances::new`. -/
def Distances.new (cells : List (Cell × Nat)) : Distances := ⟨cells⟩

/-- Accessor `Distances::all_cells`. -/
def Distances.all_cells (d : Distances) : List (Cell × Nat) := d.cells

/-- Store one distance value on one cell (the loop body of
`Grid::apply_distances`). -/
def Grid.setDist (g : Grid) (c : Cell) (v : Nat) : Grid :=
  g.updateAttrs c fun a => { a with distance := some v }

/-- Apply a solver result (`Grid::apply_distances`): copy every
(cell, value) pair into the cell's `distance`, tracking the running
maximum, then store it as `max_distance`. -/
def Grid.apply_distances (g : Grid) (distances : Distances) : Grid :=
  let fold := distances.all_cells.foldl
    (fun (acc : Grid × Nat) p => (acc.1.setDist p.1 p.2, max acc.2 p.2)) (g, 0)
  { fold.1 with max_distance := some fold.2 }

theorem updateAttrs_linkSet_pres (g : Grid) (cell : Cell) (f : Attributes → Attributes)
    (hf : ∀ a, (f a).links = a.links) (x : Cell) :
    (g.updateAttrs cell f).linkSet x = g.linkSet x := by
  unfold Grid.linkSet
  rw [updateAttrs_attrs]
  by_cases h : x = cell
  · rw [if_pos h, h]
    cases g.attrs cell with
    | none => rfl
    | some a => simp [hf a]
  · rw [if_neg h]

theorem setDist_nbr (g : Grid) (c : Cell) (v : Nat) (x : Cell) (e : Compass) :
    (g.setDist c v).nbr x e = g.nbr x e := by
  unfold Grid.setDist
  exact updateAttrs_nbr g c (fun a => { a with distance := some v }) (fun _ => rfl) x e

theorem setDist_linkSet (g : Grid) (c : Cell) (v : Nat) (x : Cell) :
    (g.setDist c v).linkSet x = g.linkSet x := by
  unfold Grid.setDist
  exact updateAttrs_linkSet_pres g c (fun a => { a with distance := some v }) (fun _ => rfl) x

theorem setDist_isSome (g : Grid) (c : Cell) (v : Nat) (x : Cell) :
    ((g.setDist c v).attrs x).isSome = (g.attrs x).isSome :=
  updateAttrs_isSome g c _ x

theorem setDist_cells (g : Grid) (c : Cell) (v : Nat) : (g.setDist c v).cells = g.cells := rfl

theorem setDist_rows (g : Grid) (c : Cell) (v : Nat) : (g.setDist c v).rows = g.rows := rfl

theorem setDist_columns (g : Grid) (c : Cell) (v : Nat) :
    (g.setDist c v).columns = g.columns := rfl

theorem setDist_distanceOf_self (g : Grid) (c : Cell) (v : Nat)
    (hc : ((g.attrs c).isSome : Bool) = true) :
    (g.setDist c v).distanceOf c = some v := by
  obtain ⟨a, ha⟩ := Option.isSome_iff_exists.1 hc
  unfold Grid.setDist Grid.distanceOf
  rw [updateAttrs_attrs, if_pos rfl, ha]
  rfl

theorem setDist_distanceOf_ne (g : Grid) (c : Cell) (v : Nat) (x : Cell) (hx : x ≠ c) :
    (g.setDist c v).distanceOf x = g.distanceOf x := by
  unfold Grid.setDist Grid.distanceOf
  rw [updateAttrs_attrs, if_neg hx]

/-- The distance-applying fold, named for the lemmas below. -/
def foldDist (l : List (Cell × Nat)) (acc : Grid × Nat) : Grid × Nat :=
  l.foldl (fun acc p => (acc.1.setDist p.1 p.2, max acc.2 p.2)) acc

theorem apply_distances_eq (g : Grid) (ds : Distances) :
    g.apply_distances ds =
      { (foldDist ds.cells (g, 0)).1 with
        max_distance := some (foldDist ds.cells (g, 0)).2 } := rfl

theorem foldDist_nbr (l : List (Cell × Nat)) (g : Grid) (m : Nat) (x : Cell) (e : Compass) :
    (foldDist l (g, m)).1.nbr x e = g.nbr x e := by
  induction l generalizing g m with
  | nil => rfl
  | cons p rest ih =>
      show (foldDist rest (g.setDist p.1 p.2, max m p.2)).1.nbr x e = _
      rw [ih, setDist_nbr]

theorem foldDist_linkSet (l : List (Cell × Nat)) (g : Grid) (m : Nat) (x : Cell) :
    (foldDist l (g, m)).1.linkSet x = g.linkSet x := by
  induction l generalizing g m with
  | nil => rfl
  | cons p rest ih =>
      show (foldDist rest (g.setDist p.1 p.2, max m p.2)).1.linkSet x = _
      rw [ih, setDist_linkSet]

theorem foldDist_isSome (l : List (Cell × Nat)) (g : Grid) (m : Nat) (x : Cell) :
    ((foldDist l (g, m)).1.attrs x).isSome = (g.attrs x).isSome := by
  induction l generalizing g m with
  | nil => rfl
  | cons p rest ih =>
      show ((foldDist rest (g.setDist p.1 p.2, max m p.2)).1.attrs x).isSome = _
      rw [ih, setDist_isSome]

theorem foldDist_cells (l : List (Cell × Nat)) (g : Grid) (m : Nat) :
    (foldDist l (g, m)).1.cells = g.cells := by
  induction l generalizing g m with
  | nil => rfl
  | cons p rest ih =>
      show (foldDist rest (g.setDist p.1 p.2, max m p.2)).1.cells = _
      rw [ih, setDist_cells]

theorem foldDist_rows (l : List (Cell × Nat)) (g : Grid) (m : Nat) :
    (foldDist l (g, m)).1.rows = g.rows := by
  induction l generalizing g m with
  | nil => rfl
  | cons p rest ih =>
      show (foldDist rest (g.setDist p.1 p.2, max m p.2)).1.rows = _
      rw [ih, setDist_rows]

theorem foldDist_columns (l : List (Cell × Nat)) (g : Grid) (m : Nat) :
    (foldDist l (g, m)).1.columns = g.columns := by
  induction l generalizing g m with
  | nil => rfl
  | cons p rest ih =>
      show (foldDist rest (g.setDist p.1 p.2, max m p.2)).1.columns = _
      rw [ih, setDist_columns]

theorem foldDist_distanceOf_notin (l : List (Cell × Nat)) (g : Grid) (m : Nat) (x : Cell)
    (hx : x ∉ l.map Prod.fst) :
    (foldDist l (g, m)).1.distanceOf x = g.distanceOf x := by
  induction l generalizing g m with
  | nil => rfl
  | cons p rest ih =>
      have hxp : x ≠ p.1 := by
        intro h
        refine hx ?_
        rw [List.map_cons, h]
        exact List.mem_cons_self _ _
      have hxr : x ∉ rest.map Prod.fst := by
        intro h
        refine hx ?_
        rw [List.map_cons]
        exact List.mem_cons_of_mem _ h
      show (foldDist rest (g.setDist p.1 p.2, max m p.2)).1.distanceOf x = _
      rw [ih _ _ hxr, setDist_distanceOf_ne g p.1 p.2 x hxp]

theorem foldDist_distanceOf_mem (l : List (Cell × Nat)) (g : Grid) (m : Nat) (c : Cell)
    (v : Nat) (hmem : (c, v) ∈ l) (hnodup : (l.map Prod.fst).Nodup)
    (hc : ((g.attrs c).isSome : Bool) = true) :
    (foldDist l (g, m)).1.distanceOf c = some v := by
  induction l generalizing g m with
  | nil => simp at hmem
  | cons p rest ih =>
      rw [List.map_cons, List.nodup_cons] at hnodup
      rcases List.mem_cons.1 hmem with heq | hrest
      · have hp : p = (c, v) := heq.symm
        subst hp
        have hnotin : c ∉ rest.map Prod.fst := fun h => hnodup.1 h
        show (foldDist rest (g.setDist c v, max m v)).1.distanceOf c = _
        rw [foldDist_distanceOf_notin rest _ _ c hnotin,
          setDist_distanceOf_self g c v hc]
      · show (foldDist rest (g.setDist p.1 p.2, max m p.2)).1.distanceOf c = _
        have hc2 : (((g.setDist p.1 p.2).attrs c).isSome : Bool) = true := by
          rw [setDist_isSome]; exact hc
        exact ih _ _ hrest hnodup.2 hc2

theorem foldDist_max_le (l : List (Cell × Nat)) (g : Grid) (m : Nat) :
    m ≤ (foldDist l (g, m)).2 := by
  induction l generalizing g m with
  | nil => exact Nat.le_refl m
  | cons p rest ih =>
      show m ≤ (foldDist rest (g.setDist p.1 p.2, max m p.2)).2
      exact Nat.le_trans (Nat.le_max_left m p.2) (ih _ _)

theorem foldDist_max_bound (l : List (Cell × Nat)) (g : Grid) (m : Nat) :
    (∀ p ∈ l, p.2 ≤ (foldDist l (g, m)).2) ∧
      ((foldDist l (g, m)).2 = m ∨ ∃ p ∈ l, p.2 = (foldDist l (g, m)).2) := by
  induction l generalizing g m with
  | nil => exact ⟨fun p hp => absurd hp (List.not_mem_nil p), Or.inl rfl⟩
  | cons p rest ih =>
      have hstep : foldDist (p :: rest) (g, m) =
          foldDist rest (g.setDist p.1 p.2, max m p.2) := rfl
      rw [hstep]
      obtain ⟨ihbound, ihwit⟩ := ih (g.setDist p.1 p.2) (max m p.2)
      constructor
      · intro q hq
        rcases List.mem_cons.1 hq with heq | hrest
        · subst heq
          exact Nat.le_trans (Nat.le_max_right m q.2) (foldDist_max_le _ _ _)
        · exact ihbound q hrest
      · rcases ihwit with heq | ⟨q, hq, hqe⟩
        · rcases max_choice m p.2 with hm | hp2
          · exact Or.inl (heq.trans hm)
          · exact Or.inr ⟨p, List.mem_cons_self p rest, (heq.trans hp2).symm⟩
        · exact Or.inr ⟨q, List.mem_cons_of_mem p hq, hqe⟩

/-- C8 (amended): `apply_distances` sets the distance of exactly the
cells that appear in the solver result to their value from the result,
sets `max_distance` to the maximum of the applied values (0 when there
are none), and changes no other maze state; a cell absent from the
result keeps its previous distance — in particular it keeps no distance
when none had been applied before. -/
theorem c8_apply_distances (g : Grid) (ds : Distances)
    (hnodup : (ds.cells.map Prod.fst).Nodup) :
    (∀ c v, (c, v) ∈ ds.cells → ((g.attrs c).isSome : Bool) = true →
      (g.apply_distances ds).distanceOf c = some v) ∧
    (∀ c, c ∉ ds.cells.map Prod.fst →
      (g.apply_distances ds).distanceOf c = g.distanceOf c) ∧
    (∃ m, (g.apply_distances ds).max_distance = some m ∧
      (∀ p ∈ ds.cells, p.2 ≤ m) ∧ (m = 0 ∨ ∃ p ∈ ds.cells, p.2 = m)) ∧
    (∀ x e, (g.apply_distances ds).nbr x e = g.nbr x e) ∧
    (∀ x, (g.apply_distances ds).linkSet x = g.linkSet x) ∧
    (∀ x, ((g.apply_distances ds).attrs x).isSome = (g.attrs x).isSome) ∧
    (g.apply_distances ds).cells = g.cells ∧
    (g.apply_distances ds).rows = g.rows ∧
    (g.apply_distances ds).columns = g.columns := by
  refine ⟨?_, ?_, ?_, ?_, ?_, ?_, ?_, ?_, ?_⟩
  · intro c v hmem hc
    show (foldDist ds.cells (g, 0)).1.distanceOf c = some v
    exact foldDist_distanceOf_mem ds.cells g 0 c v hmem hnodup hc
  · intro c hc
    show (foldDist ds.cells (g, 0)).1.distanceOf c = g.distanceOf c
    exact foldDist_distanceOf_notin ds.cells g 0 c hc
  · refine ⟨(foldDist ds.cells (g, 0)).2, rfl, (foldDist_max_bound ds.cells g 0).1, ?_⟩
    exact (foldDist_max_bound ds.cells g 0).2
  · intro x e
    show (foldDist ds.cells (g, 0)).1.nbr x e = g.nbr x e
    exact foldDist_nbr ds.cells g 0 x e
  · intro x
    show (foldDist ds.cells (g, 0)).1.linkSet x = g.linkSet x
    exact foldDist_linkSet ds.cells g 0 x
  · intro x
    show ((foldDist ds.cells (g, 0)).1.attrs x).isSome = (g.attrs x).isSome
    exact foldDist_isSome ds.cells g 0 x
  · show (foldDist ds.cells (g, 0)).1.cells = g.cells
    exact foldDist_cells ds.cells g 0
  · show (foldDist ds.cells (g, 0)).1.rows = g.rows
    exact foldDist_rows ds.cells g 0
  · show (foldDist ds.cells (g, 0)).1.columns = g.columns
    exact foldDist_columns ds.cells g 0

theorem c8_apply_distances_witness :
    ((((Distances.new [(⟨0, 0⟩, 0), (⟨0, 1⟩, 1)]).cells.map Prod.fst).Nodup) ∧
      ((∀ c v, (c, v) ∈ (Distances.new [(⟨0, 0⟩, 0), (⟨0, 1⟩, 1)]).cells →
          (((gridBuild 1 2 (fun _ _ => true)).attrs c).isSome : Bool) = true →
        ((gridBuild 1 2 (fun _ _ => true)).apply_distances
          (Distances.new [(⟨0, 0⟩, 0), (⟨0, 1⟩, 1)])).distanceOf c = some v) ∧
      (∀ c, c ∉ (Distances.new [(⟨0, 0⟩, 0), (⟨0, 1⟩, 1)]).cells.map Prod.fst →
        ((gridBuild 1 2 (fun _ _ => true)).apply_distances
          (Distances.new [(⟨0, 0⟩, 0), (⟨0, 1⟩, 1)])).distanceOf c =
          (gridBuild 1 2 (fun _ _ => true)).distanceOf c) ∧
      (∃ m, ((gridBuild 1 2 (fun _ _ => true)).apply_distances
          (Distances.new [(⟨0, 0⟩, 0), (⟨0, 1⟩, 1)])).max_distance = some m ∧
        (∀ p ∈ (Distances.new [(⟨0, 0⟩, 0), (⟨0, 1⟩, 1)]).cells, p.2 ≤ m) ∧
        (m = 0 ∨ ∃ p ∈ (Distances.new [(⟨0, 0⟩, 0), (⟨0, 1⟩, 1)]).cells, p.2 = m)) ∧
      (∀ x e, ((gridBuild 1 2 (fun _ _ => true)).apply_distances
          (Distances.new [(⟨0, 0⟩, 0), (⟨0, 1⟩, 1)])).nbr x e =
        (gridBuild 1 2 (fun _ _ => true)).nbr x e) ∧
      (∀ x, ((gridBuild 1 2 (fun _ _ => true)).apply_distances
          (Distances.new [(⟨0, 0⟩, 0), (⟨0, 1⟩, 1)])).linkSet x =
        (gridBuild 1 2 (fun _ _ => true)).linkSet x) ∧
      (∀ x, (((gridBuild 1 2 (fun _ _ => true)).apply_distances
          (Distances.new [(⟨0, 0⟩, 0), (⟨0, 1⟩, 1)])).attrs x).isSome =
        ((gridBuild 1 2 (fun _ _ => true)).attrs x).isSome) ∧
      ((gridBuild 1 2 (fun _ _ => true)).apply_distances
          (Distances.new [(⟨0, 0⟩, 0), (⟨0, 1⟩, 1)])).cells =
        (gridBuild 1 2 (fun _ _ => true)).cells ∧
      ((gridBuild 1 2 (fun _ _ => true)).apply_distances
          (Distances.new [(⟨0, 0⟩, 0), (⟨0, 1⟩, 1)])).rows =
        (gridBuild 1 2 (fun _ _ => true)).rows ∧
      ((gridBuild 1 2 (fun _ _ => true)).apply_distances
          (Distances.new [(⟨0, 0⟩, 0), (⟨0, 1⟩, 1)])).columns =
        (gridBuild 1 2 (fun _ _ => true)).columns)) :=
  ⟨by decide, c8_apply_distances (gridBuild 1 2 (fun _ _ => true))
    (Distances.new [(⟨0, 0⟩, 0), (⟨0, 1⟩, 1)]) (by decide)⟩

/-- A maze that already carries applied distances: both cells of a 1x2
grid have a distance. -/
def gStale : Grid :=
  (gridBuild 1 2 (fun _ _ => true)).apply_distances
    (Distances.new [(⟨0, 0⟩, 0), (⟨0, 1⟩, 1)])

/-- C8 counterexample: re-applying a result that omits a cell does not
clear that cell's distance — the cell (0, 1) is absent from the second
result yet keeps distance 1, so "every cell absent from the result keeps
no distance" fails on replay. -/
theorem c8_counterexample :
    (⟨0, 1⟩ : Cell) ∉ (Distances.new [((⟨0, 0⟩ : Cell), 0)]).cells.map Prod.fst ∧
      (gStale.apply_distances (Distances.new [(⟨0, 0⟩, 0)])).distanceOf ⟨0, 1⟩ = some 1 := by
  refine ⟨by decide, by decide⟩

/-- The direction just linked is in the cell's link set afterwards (no
assumption on the neighbour's attribute record). -/
theorem link_cell_mem_self (g : Grid) (cell : Cell) (d : Compass) (t : Cell)
    (hn : g.nbr cell d = some t) : d ∈ (g.link_cell cell d).1.linkSet cell := by
  have hcell : ((g.attrs cell).isSome : Bool) = true := nbr_isSome_of_some hn
  have hstep : (g.link_cell cell d).1 = (g.addLinkAt cell d).addLinkAt t d.reverse := by
    unfold Grid.link_cell
    rw [hn]
  rw [hstep]
  have h1 : d ∈ (g.addLinkAt cell d).linkSet cell :=
    (addLinkAt_mem g cell d cell d hcell).2 (Or.inr ⟨rfl, rfl⟩)
  by_cases ht : (((g.addLinkAt cell d).attrs t).isSome : Bool) = true
  · exact (addLinkAt_mem _ t d.reverse cell d ht).2 (Or.inl h1)
  · have htn : (g.addLinkAt cell d).attrs t = none := by
      cases hx : (g.addLinkAt cell d).attrs t with
      | none => rfl
      | some a => rw [hx] at ht; simp at ht
    have h2 : ((g.addLinkAt cell d).addLinkAt t d.reverse).linkSet cell =
        (g.addLinkAt cell d).linkSet cell := by
      show ((g.addLinkAt cell d).updateAttrs t _).linkSet cell = _
      exact updateAttrs_linkSet_none _ t _ htn cell
    rw [h2]
    exact h1

/-- An in-range `getD` read returns a member of the list. -/
theorem getD_mem_of_lt {α : Type} {l : List α} {i : Nat} (h : i < l.length) (dflt : α) :
    l.getD i dflt ∈ l := by
  rw [List.getD_eq_getElem?_getD, List.getElem?_eq_getElem h]
  simp only [Option.getD_some]
  exact List.getElem_mem h

/-- An injected uniform-integer source (the `RngCore` capability): an
abstract stream of raw draws, consumed in order. -/
structure Rng where
  stream : Nat → Nat
  idx : Nat

/-- Draw one `u16` value (`rng.gen::<u16>()`). -/
def Rng.gen16 (r : Rng) : Nat × Rng :=
  (r.stream r.idx % 65536, { r with idx := r.idx + 1 })

/-- Draw one `usize` value (`rng.gen::<usize>()`, 64-bit). -/
def Rng.gen64 (r : Rng) : Nat × Rng :=
  (r.stream r.idx % u64size, { r with idx := r.idx + 1 })

/-- The BinaryTree router state (`BinaryTree` in
`src/router/binarytree.rs`): the borrowed RNG and the preferred
directions (conventionally North and East). -/
structure BinaryTree where
  rng : Rng
  preferred : List Compass

/-- The candidate directions at a cell: the preferred directions that
have a real neighbour (the `filter` inside `BinaryTree::direction`). -/
def btCandidates (g : Grid) (bt : BinaryTree) (cell : Cell) : List Compass :=
  bt.preferred.filter fun d => (g.nbr cell d).isSome

/-- `BinaryTree::direction`: zero candidates → none; one candidate →
that one; more → index the candidate list by a fresh draw modulo the
candidate count. -/
def BinaryTree.direction (bt : BinaryTree) (g : Grid) (cell : Cell) :
    Option Compass × BinaryTree :=
  match (btCandidates g bt cell).length with
  | 0 => (none, bt)
  | 1 => (some ((btCandidates g bt cell).getD 0 Compass.north), bt)
  | range =>
      (some ((btCandidates g bt cell).getD (bt.rng.gen64.1 % range) Compass.north),
        { bt with rng := bt.rng.gen64.2 })

/-- `BinaryTree::by_cell`: link the chosen direction, if any. -/
def BinaryTree.by_cell (bt : BinaryTree) (g : Grid) (cell : Cell) : BinaryTree × Grid :=
  match bt.direction g cell with
  | (some d, bt2) => (bt2, (g.link_cell cell d).1)
  | (none, bt2) => (bt2, g)

/-- C5: BinaryTree's per-cell behaviour, by candidate count.  With no
candidate nothing changes (no link, no draw); with exactly one
candidate that direction is linked without consuming the RNG; with two
or more, the candidate indexed by a fresh RNG draw modulo the candidate
count is linked — the uniform choice through the injected source. -/
theorem c5_binarytree (g : Grid) (bt : BinaryTree) (cell : Cell) :
    (btCandidates g bt cell = [] → bt.by_cell g cell = (bt, g)) ∧
    (∀ d, btCandidates g bt cell = [d] →
      (bt.by_cell g cell = (bt, (g.link_cell cell d).1) ∧
        d ∈ (bt.by_cell g cell).2.linkSet cell)) ∧
    (2 ≤ (btCandidates g bt cell).length →
      (bt.by_cell g cell =
        ({ bt with rng := ⟨bt.rng.stream, bt.rng.idx + 1⟩ },
          (g.link_cell cell ((btCandidates g bt cell).getD
            (bt.rng.stream bt.rng.idx % u64size % (btCandidates g bt cell).length)
            Compass.north)).1) ∧
        (btCandidates g bt cell).getD
            (bt.rng.stream bt.rng.idx % u64size % (btCandidates g bt cell).length)
            Compass.north ∈ btCandidates g bt cell ∧
        (btCandidates g bt cell).getD
            (bt.rng.stream bt.rng.idx % u64size % (btCandidates g bt cell).length)
            Compass.north ∈ (bt.by_cell g cell).2.linkSet cell)) := by
  have linkmem : ∀ d, d ∈ btCandidates g bt cell →
      d ∈ (g.link_cell cell d).1.linkSet cell := by
    intro d hd
    have hpred := (List.mem_filter.1 hd).2
    obtain ⟨t, ht⟩ := Option.isSome_iff_exists.1 hpred
    exact link_cell_mem_self g cell d t ht
  refine ⟨?_, ?_, ?_⟩
  · intro hc0
    unfold BinaryTree.by_cell BinaryTree.direction
    rw [hc0]
    rfl
  · intro d hc1
    have heq : bt.by_cell g cell = (bt, (g.link_cell cell d).1) := by
      unfold BinaryTree.by_cell BinaryTree.direction
      rw [hc1]
      rfl
    refine ⟨heq, ?_⟩
    rw [heq]
    exact linkmem d (by rw [hc1]; exact List.mem_singleton.2 rfl)
  · intro hlen
    obtain ⟨k, hk⟩ : ∃ k, (btCandidates g bt cell).length = k + 2 :=
      ⟨(btCandidates g bt cell).length - 2, by omega⟩
    have heq : bt.by_cell g cell =
        ({ bt with rng := ⟨bt.rng.stream, bt.rng.idx + 1⟩ },
          (g.link_cell cell ((btCandidates g bt cell).getD
            (bt.rng.stream bt.rng.idx % u64size % (btCandidates g bt cell).length)
            Compass.north)).1) := by
      unfold BinaryTree.by_cell BinaryTree.direction
      rw [hk]
      rfl
    have hmem : (btCandidates g bt cell).getD
        (bt.rng.stream bt.rng.idx % u64size % (btCandidates g bt cell).length)
        Compass.north ∈ btCandidates g bt cell := by
      apply getD_mem_of_lt
      rw [hk]
      exact Nat.mod_lt _ (by omega)
    refine ⟨heq, hmem, ?_⟩
    rw [heq]
    exact linkmem _ hmem

theorem c5_binarytree_witness :
    ((btCandidates (gridBuild 2 2 (fun _ _ => true))
        ⟨⟨fun _ => 0, 0⟩, [Compass.north, Compass.east]⟩ ⟨1, 0⟩).length = 2) ∧
      (2 ≤ (btCandidates (gridBuild 2 2 (fun _ _ => true))
          ⟨⟨fun _ => 0, 0⟩, [Compass.north, Compass.east]⟩ ⟨1, 0⟩).length →
        ((⟨⟨fun _ => 0, 0⟩, [Compass.north, Compass.east]⟩ : BinaryTree).by_cell
            (gridBuild 2 2 (fun _ _ => true)) ⟨1, 0⟩ =
          ({ (⟨⟨fun _ => 0, 0⟩, [Compass.north, Compass.east]⟩ : BinaryTree) with
              rng := ⟨(⟨⟨fun _ => 0, 0⟩, [Compass.north, Compass.east]⟩ :
                BinaryTree).rng.stream,
                (⟨⟨fun _ => 0, 0⟩, [Compass.north, Compass.east]⟩ :
                  BinaryTree).rng.idx + 1⟩ },
            ((gridBuild 2 2 (fun _ _ => true)).link_cell ⟨1, 0⟩
              ((btCandidates (gridBuild 2 2 (fun _ _ => true))
                  ⟨⟨fun _ => 0, 0⟩, [Compass.north, Compass.east]⟩ ⟨1, 0⟩).getD
                ((⟨⟨fun _ => 0, 0⟩, [Compass.north, Compass.east]⟩ :
                  BinaryTree).rng.stream
                  (⟨⟨fun _ => 0, 0⟩, [Compass.north, Compass.east]⟩ :
                    BinaryTree).rng.idx % u64size %
                  (btCandidates (gridBuild 2 2 (fun _ _ => true))
                    ⟨⟨fun _ => 0, 0⟩, [Compass.north, Compass.east]⟩ ⟨1, 0⟩).length)
                Compass.north)).1) ∧
          (btCandidates (gridBuild 2 2 (fun _ _ => true))
              ⟨⟨fun _ => 0, 0⟩, [Compass.north, Compass.east]⟩ ⟨1, 0⟩).getD
            ((⟨⟨fun _ => 0, 0⟩, [Compass.north, Compass.east]⟩ :
              BinaryTree).rng.stream
              (⟨⟨fun _ => 0, 0⟩, [Compass.north, Compass.east]⟩ :
                BinaryTree).rng.idx % u64size %
              (btCandidates (gridBuild 2 2 (fun _ _ => true))
                ⟨⟨fun _ => 0, 0⟩, [Compass.north, Compass.east]⟩ ⟨1, 0⟩).length)
            Compass.north ∈ btCandidates (gridBuild 2 2 (fun _ _ => true))
              ⟨⟨fun _ => 0, 0⟩, [Compass.north, Compass.east]⟩ ⟨1, 0⟩ ∧
          (btCandidates (gridBuild 2 2 (fun _ _ => true))
              ⟨⟨fun _ => 0, 0⟩, [Compass.north, Compass.east]⟩ ⟨1, 0⟩).getD
            ((⟨⟨fun _ => 0, 0⟩, [Compass.north, Compass.east]⟩ :
              BinaryTree).rng.stream
              (⟨⟨fun _ => 0, 0⟩, [Compass.north, Compass.east]⟩ :
                BinaryTree).rng.idx % u64size %
              (btCandidates (gridBuild 2 2 (fun _ _ => true))
                ⟨⟨fun _ => 0, 0⟩, [Compass.north, Compass.east]⟩ ⟨1, 0⟩).length)
            Compass.north ∈
            ((⟨⟨fun _ => 0, 0⟩, [Compass.north, Compass.east]⟩ : BinaryTree).by_cell
              (gridBuild 2 2 (fun _ _ => true)) ⟨1, 0⟩).2.linkSet ⟨1, 0⟩)) :=
  ⟨by decide,
    fun _ => (c5_binarytree (gridBuild 2 2 (fun _ _ => true))
      ⟨⟨fun _ => 0, 0⟩, [Compass.north, Compass.east]⟩ ⟨1, 0⟩).2.2 (by decide)⟩

/-- The SideWinder router state (`SideWinder` in
`src/router/sidewinder.rs`): the borrowed RNG, the (ceiling, side)
direction pair and the current run of cells. -/
structure SideWinder where
  rng : Rng
  directions : Compass × Compass
  run : List Cell

/-- `SideWinder::close_row`: close when the cell has no side neighbour,
or when it has a ceiling neighbour and a fresh coin draw is even.  The
Rust `||` / `&&` short-circuit, so the coin is drawn only when the side
neighbour exists and the ceiling neighbour is consulted positively. -/
def SideWinder.close_row (sw : SideWinder) (cell : Cell) (g : Grid) : Bool × SideWinder :=
  if (g.nbr cell sw.directions.2).isNone then (true, sw)
  else if (g.nbr cell sw.directions.1).isSome then
    (sw.rng.gen16.1 % 2 == 0, { sw with rng := sw.rng.gen16.2 })
  else (false, sw)

/-- `SideWinder::random_cell`: index the run by a fresh draw modulo the
run length. -/
def SideWinder.random_cell (sw : SideWinder) : Cell × SideWinder :=
  (sw.run.getD (sw.rng.gen64.1 % sw.run.length) ⟨0, 0⟩, { sw with rng := sw.rng.gen64.2 })

/-- `SideWinder::by_cell`: push the cell onto the run; if the run
closes, link one run cell (chosen by the RNG) toward the ceiling and
clear the run, otherwise link the cell toward the side and keep the
run. -/
def SideWinder.by_cell (sw : SideWinder) (g : Grid) (cell : Cell) : SideWinder × Grid :=
  let sw1 : SideWinder := { sw with run := sw.run ++ [cell] }
  let cr := sw1.close_row cell g
  if cr.1 then
    let rc := cr.2.random_cell
    ({ rc.2 with run := [] }, (g.link_cell rc.1 sw.directions.1).1)
  else
    (cr.2, (g.link_cell cell sw.directions.2).1)

example :
    (SideWinder.by_cell ⟨⟨fun _ => 0, 0⟩, (Compass.north, Compass.east), []⟩
      (gridBuild 2 2 (fun _ _ => true)) ⟨1, 1⟩).1.run = [] := by decide

/-- C4 (amended): SideWinder's per-cell behaviour.  The visited cell is
always appended to the run first.  The run closes exactly when the cell
has no side neighbour, or when it has a ceiling neighbour and a fresh
coin draw is even; closing applies `link_cell` toward the ceiling on the
run cell indexed by a fresh RNG draw modulo the run length (a no-op when
that cell has no ceiling neighbour) and clears the run.  Otherwise the
cell is linked toward the side and the run keeps accumulating.  (The
source consults the ceiling *neighbour*, not the row number: a cell
below a masked slot never closes by coin flip — see the
counterexample.) -/
theorem c4_sidewinder (g : Grid) (sw : SideWinder) (cell : Cell) :
    ((g.nbr cell sw.directions.2) = none →
      (sw.by_cell g cell =
        (⟨⟨sw.rng.stream, sw.rng.idx + 1⟩, sw.directions, []⟩,
          (g.link_cell ((sw.run ++ [cell]).getD
            (sw.rng.stream sw.rng.idx % u64size % (sw.run ++ [cell]).length) ⟨0, 0⟩)
            sw.directions.1).1) ∧
        (sw.run ++ [cell]).getD
          (sw.rng.stream sw.rng.idx % u64size % (sw.run ++ [cell]).length) ⟨0, 0⟩ ∈
          sw.run ++ [cell])) ∧
    ((g.nbr cell sw.directions.2).isSome = true →
      (g.nbr cell sw.directions.1).isSome = true →
      sw.rng.stream sw.rng.idx % 65536 % 2 = 0 →
      (sw.by_cell g cell =
        (⟨⟨sw.rng.stream, sw.rng.idx + 2⟩, sw.directions, []⟩,
          (g.link_cell ((sw.run ++ [cell]).getD
            (sw.rng.stream (sw.rng.idx + 1) % u64size % (sw.run ++ [cell]).length) ⟨0, 0⟩)
            sw.directions.1).1) ∧
        (sw.run ++ [cell]).getD
          (sw.rng.stream (sw.rng.idx + 1) % u64size % (sw.run ++ [cell]).length) ⟨0, 0⟩ ∈
          sw.run ++ [cell])) ∧
    ((g.nbr cell sw.directions.2).isSome = true →
      (g.nbr cell sw.directions.1).isSome = true →
      sw.rng.stream sw.rng.idx % 65536 % 2 ≠ 0 →
      (sw.by_cell g cell =
        (⟨⟨sw.rng.stream, sw.rng.idx + 1⟩, sw.directions, sw.run ++ [cell]⟩,
          (g.link_cell cell sw.directions.2).1) ∧
        sw.directions.2 ∈ (sw.by_cell g cell).2.linkSet cell)) ∧
    ((g.nbr cell sw.directions.2).isSome = true →
      (g.nbr cell sw.directions.1) = none →
      (sw.by_cell g cell =
        (⟨sw.rng, sw.directions, sw.run ++ [cell]⟩,
          (g.link_cell cell sw.directions.2).1) ∧
        sw.directions.2 ∈ (sw.by_cell g cell).2.linkSet cell)) := by
  have hrunlen : 0 < (sw.run ++ [cell]).length := by
    rw [List.length_append]
    simp
  refine ⟨?_, ?_, ?_, ?_⟩
  · intro hside
    have heq : sw.by_cell g cell =
        (⟨⟨sw.rng.stream, sw.rng.idx + 1⟩, sw.directions, []⟩,
          (g.link_cell ((sw.run ++ [cell]).getD
            (sw.rng.stream sw.rng.idx % u64size % (sw.run ++ [cell]).length) ⟨0, 0⟩)
            sw.directions.1).1) := by
      unfold SideWinder.by_cell SideWinder.close_row SideWinder.random_cell Rng.gen64
      simp [hside]
    exact ⟨heq, getD_mem_of_lt (Nat.mod_lt _ hrunlen) ⟨0, 0⟩⟩
  · intro hside htop hcoin
    obtain ⟨ts, hts⟩ := Option.isSome_iff_exists.1 hside
    obtain ⟨tt, htt⟩ := Option.isSome_iff_exists.1 htop
    have heq : sw.by_cell g cell =
        (⟨⟨sw.rng.stream, sw.rng.idx + 2⟩, sw.directions, []⟩,
          (g.link_cell ((sw.run ++ [cell]).getD
            (sw.rng.stream (sw.rng.idx + 1) % u64size % (sw.run ++ [cell]).length) ⟨0, 0⟩)
            sw.directions.1).1) := by
      unfold SideWinder.by_cell SideWinder.close_row SideWinder.random_cell Rng.gen64 Rng.gen16
      simp [hts, htt, hcoin]
    exact ⟨heq, getD_mem_of_lt (Nat.mod_lt _ hrunlen) ⟨0, 0⟩⟩
  · intro hside htop hcoin
    obtain ⟨ts, hts⟩ := Option.isSome_iff_exists.1 hside
    obtain ⟨tt, htt⟩ := Option.isSome_iff_exists.1 htop
    have hc1 : sw.rng.stream sw.rng.idx % 65536 % 2 = 1 := by omega
    have heq : sw.by_cell g cell =
        (⟨⟨sw.rng.stream, sw.rng.idx + 1⟩, sw.directions, sw.run ++ [cell]⟩,
          (g.link_cell cell sw.directions.2).1) := by
      unfold SideWinder.by_cell SideWinder.close_row SideWinder.random_cell Rng.gen16
      simp [hts, htt, hc1]
    refine ⟨heq, ?_⟩
    have h2 : (sw.by_cell g cell).2 = (g.link_cell cell sw.directions.2).1 := by
      rw [heq]
    rw [h2]
    exact link_cell_mem_self g cell sw.directions.2 ts hts
  · intro hside htop
    obtain ⟨ts, hts⟩ := Option.isSome_iff_exists.1 hside
    have heq : sw.by_cell g cell =
        (⟨sw.rng, sw.directions, sw.run ++ [cell]⟩,
          (g.link_cell cell sw.directions.2).1) := by
      unfold SideWinder.by_cell SideWinder.close_row SideWinder.random_cell
      simp [hts, htop]
    refine ⟨heq, ?_⟩
    have h2 : (sw.by_cell g cell).2 = (g.link_cell cell sw.directions.2).1 := by
      rw [heq]
    rw [h2]
    exact link_cell_mem_self g cell sw.directions.2 ts hts

theorem c4_sidewinder_witness :
    (((gridBuild 2 2 (fun _ _ => true)).nbr ⟨0, 0⟩ Compass.east).isSome = true ∧
      (gridBuild 2 2 (fun _ _ => true)).nbr ⟨0, 0⟩ Compass.north = none) ∧
      (SideWinder.by_cell ⟨⟨fun _ => 0, 0⟩, (Compass.north, Compass.east), []⟩
          (gridBuild 2 2 (fun _ _ => true)) ⟨0, 0⟩ =
        (⟨⟨fun _ => 0, 0⟩, (Compass.north, Compass.east), [⟨0, 0⟩]⟩,
          ((gridBuild 2 2 (fun _ _ => true)).link_cell ⟨0, 0⟩ Compass.east).1) ∧
        Compass.east ∈ (SideWinder.by_cell ⟨⟨fun _ => 0, 0⟩,
          (Compass.north, Compass.east), []⟩
          (gridBuild 2 2 (fun _ _ => true)) ⟨0, 0⟩).2.linkSet ⟨0, 0⟩) :=
  ⟨⟨by decide, by decide⟩,
    (c4_sidewinder (gridBuild 2 2 (fun _ _ => true))
      ⟨⟨fun _ => 0, 0⟩, (Compass.north, Compass.east), []⟩ ⟨0, 0⟩).2.2.2
      (by decide) (by decide)⟩

/-- A 2x2 grid whose top-left slot is masked. -/
def gMaskedTopLeft : Grid := gridBuild 2 2 (fun r c => !(r == 0 && c == 0))

/-- C4 counterexample: the cell (1, 0) of the masked grid is not in the
top row and the injected coin (constant-zero stream) says "close", so
the claim predicts the run closes with a ceiling link; but the cell has
no ceiling *neighbour* (the slot above is masked), so the code keeps the
run open, links east instead, and carves no north link. -/
theorem c4_counterexample :
    (⟨1, 0⟩ : Cell).row ≠ 0 ∧
      (0 : Nat) % 65536 % 2 = 0 ∧
      (SideWinder.by_cell ⟨⟨fun _ => 0, 0⟩, (Compass.north, Compass.east), []⟩
        gMaskedTopLeft ⟨1, 0⟩).1.run = [⟨1, 0⟩] ∧
      Compass.east ∈ (SideWinder.by_cell ⟨⟨fun _ => 0, 0⟩,
        (Compass.north, Compass.east), []⟩ gMaskedTopLeft ⟨1, 0⟩).2.linkSet ⟨1, 0⟩ ∧
      Compass.north ∉ (SideWinder.by_cell ⟨⟨fun _ => 0, 0⟩,
        (Compass.north, Compass.east), []⟩ gMaskedTopLeft ⟨1, 0⟩).2.linkSet ⟨1, 0⟩ := by
  refine ⟨by decide, by decide, by decide, by decide, by decide⟩

/-- Association-list lookup modelling the visited `HashMap<Cell, u32>`. -/
def lookupCell : List (Cell × Nat) → Cell → Option Nat
  | [], _ => none
  | (c, v) :: rest, x => if x = c then some v else lookupCell rest x

/-- `Dijkstra::frontier`, fuel-indexed: record the cell at the current
depth, then for every direction in the cell's link set resolve the
linked neighbour through the precomputed neighbour map and, if
unvisited, recurse at depth + 1.  The link set is iterated in the fixed
compass order (the source iterates a `HashSet`, whose order is
unspecified).  The fuel only bounds the recursion depth; `solve`
supplies enough fuel that it never runs out (`frontier_closed` below
shows the walk completes). -/
def frontierF (g : Grid) : Nat → List (Cell × Nat) → Cell → Nat → List (Cell × Nat)
  | 0, map, _, _ => map
  | fuel + 1, map, cell, depth =>
      Compass.all.foldl
        (fun m d =>
          if d ∈ g.linkSet cell then
            match g.nbr cell d with
            | some c =>
                if (lookupCell m c).isSome then m else frontierF g fuel m c (depth + 1)
            | none => m
          else m)
        ((cell, depth) :: map)

/-- The loop body of the frontier fold, named for the lemmas below. -/
def frontStep (g : Grid) (fuel : Nat) (cell : Cell) (depth : Nat)
    (m : List (Cell × Nat)) (d : Compass) : List (Cell × Nat) :=
  if d ∈ g.linkSet cell then
    match g.nbr cell d with
    | some c => if (lookupCell m c).isSome then m else frontierF g fuel m c (depth + 1)
    | none => m
  else m

theorem frontierF_succ (g : Grid) (fuel : Nat) (map : List (Cell × Nat)) (cell : Cell)
    (depth : Nat) :
    frontierF g (fuel + 1) map cell depth =
      Compass.all.foldl (frontStep g fuel cell depth) ((cell, depth) :: map) := rfl

/-- `Dijkstra::solve` (`impl Solver for Dijkstra`): look up the start
cell — a fatal error (`none`) when masked or out of range — then run the
frontier walk from it at distance 0 on an empty map. -/
def Dijkstra.solve (g : Grid) (start : Nat × Nat) : Option Distances :=
  match g.cell_at start.1 start.2 with
  | some c => some (Distances.new (frontierF g (g.cells.length + 1) [] c 0))
  | none => none

/-- A carved-link path (spec-side definition of reachability): each step
follows a direction present in the source cell's link set to its
recorded neighbour. -/
inductive LinkedPath (g : Grid) (s : Cell) : Cell → Nat → Prop where
  | refl : LinkedPath g s s 0
  | step {b c : Cell} {n : Nat} {d : Compass} : LinkedPath g s b n →
      d ∈ g.linkSet b → g.nbr b d = some c → LinkedPath g s c (n + 1)

theorem LinkedPath.trans {g : Grid} {a b c : Cell} {m n : Nat}
    (h1 : LinkedPath g a b m) (h2 : LinkedPath g b c n) : LinkedPath g a c (m + n) := by
  induction h2 with
  | refl => exact h1
  | step hp hd hn ih => exact LinkedPath.step ih hd hn

theorem isSome_false_eq_none {o : Option Nat} (h : o.isSome = false) : o = none := by
  cases o with
  | none => rfl
  | some v => simp at h

/-- Lookups present in the map survive the frontier walk unchanged (the
walk only inserts unvisited cells). -/
theorem frontier_lookup_pres (g : Grid) :
    ∀ fuel map cell depth, lookupCell map cell = none →
      ∀ x v, lookupCell map x = some v →
        lookupCell (frontierF g fuel map cell depth) x = some v := by
  intro fuel
  induction fuel with
  | zero => intro map cell depth _ x v hx; exact hx
  | succ fuel ih =>
      intro map cell depth hfresh x v hx
      rw [frontierF_succ]
      have hxc : x ≠ cell := by
        intro h
        rw [h, hfresh] at hx
        cases hx
      have hx0 : lookupCell ((cell, depth) :: map) x = some v := by
        show (if x = cell then some depth else lookupCell map x) = some v
        rw [if_neg hxc, hx]
      have haux : ∀ (l : List Compass) (m : List (Cell × Nat)),
          lookupCell m x = some v →
          lookupCell (l.foldl (frontStep g fuel cell depth) m) x = some v := by
        intro l
        induction l with
        | nil => intro m hm; exact hm
        | cons d rest ihl =>
            intro m hm
            show lookupCell (rest.foldl (frontStep g fuel cell depth)
              (frontStep g fuel cell depth m d)) x = some v
            apply ihl
            unfold frontStep
            by_cases hd : d ∈ g.linkSet cell
            · rw [if_pos hd]
              cases hn : g.nbr cell d with
              | none => exact hm
              | some c =>
                  show lookupCell (if (lookupCell m c).isSome = true then m
                    else frontierF g fuel m c (depth + 1)) x = some v
                  by_cases hlook : (lookupCell m c).isSome = true
                  · rw [if_pos hlook]; exact hm
                  · rw [if_neg hlook]
                    exact ih m c (depth + 1)
                      (isSome_false_eq_none (by simpa using hlook)) x v hm
            · rw [if_neg hd]; exact hm
      exact haux Compass.all ((cell, depth) :: map) hx0

/-- The root of a frontier call (with positive fuel) ends in the map at
its call depth. -/
theorem frontier_self_mem (g : Grid) (fuel : Nat) (map : List (Cell × Nat)) (cell : Cell)
    (depth : Nat) (_hfresh : lookupCell map cell = none) :
    lookupCell (frontierF g (fuel + 1) map cell depth) cell = some depth := by
  rw [frontierF_succ]
  have hx0 : lookupCell ((cell, depth) :: map) cell = some depth := by
    show (if cell = cell then some depth else lookupCell map cell) = some depth
    rw [if_pos rfl]
  have haux : ∀ (l : List Compass) (m : List (Cell × Nat)),
      lookupCell m cell = some depth →
      lookupCell (l.foldl (frontStep g fuel cell depth) m) cell = some depth := by
    intro l
    induction l with
    | nil => intro m hm; exact hm
    | cons d rest ihl =>
        intro m hm
        show lookupCell (rest.foldl (frontStep g fuel cell depth)
          (frontStep g fuel cell depth m d)) cell = some depth
        apply ihl
        unfold frontStep
        by_cases hd : d ∈ g.linkSet cell
        · rw [if_pos hd]
          cases hn : g.nbr cell d with
          | none => exact hm
          | some c =>
              show lookupCell (if (lookupCell m c).isSome = true then m
                else frontierF g fuel m c (depth + 1)) cell = some depth
              by_cases hlook : (lookupCell m c).isSome = true
              · rw [if_pos hlook]; exact hm
              · rw [if_neg hlook]
                exact frontier_lookup_pres g fuel m c (depth + 1)
                  (isSome_false_eq_none (by simpa using hlook)) cell depth hm
        · rw [if_neg hd]; exact hm
  exact haux Compass.all ((cell, depth) :: map) hx0

/-- Present keys stay present through the walk. -/
theorem frontier_isSome_pres (g : Grid) (fuel : Nat) (map : List (Cell × Nat)) (cell : Cell)
    (depth : Nat) (hfresh : lookupCell map cell = none) (x : Cell)
    (hx : (lookupCell map x).isSome = true) :
    (lookupCell (frontierF g fuel map cell depth) x).isSome = true := by
  obtain ⟨v, hv⟩ := Option.isSome_iff_exists.1 hx
  rw [frontier_lookup_pres g fuel map cell depth hfresh x v hv]
  rfl

/-- Provenance of the distances: every entry the walk adds is the
endpoint of a carved-link path from the walk's root, of length equal to
its recorded distance minus the root depth. -/
theorem frontier_lookup_source (g : Grid) :
    ∀ fuel map cell depth, lookupCell map cell = none →
      ∀ x v, lookupCell (frontierF g fuel map cell depth) x = some v →
        lookupCell map x = some v ∨ ∃ k, v = depth + k ∧ LinkedPath g cell x k := by
  intro fuel
  induction fuel with
  | zero => intro map cell depth _ x v hx; exact Or.inl hx
  | succ fuel ih =>
      intro map cell depth hfresh x v hx
      rw [frontierF_succ] at hx
      have haux : ∀ (l : List Compass) (m : List (Cell × Nat)),
          (∀ y w, lookupCell m y = some w →
            lookupCell map y = some w ∨ ∃ k, w = depth + k ∧ LinkedPath g cell y k) →
          ∀ y w, lookupCell (l.foldl (frontStep g fuel cell depth) m) y = some w →
            lookupCell map y = some w ∨ ∃ k, w = depth + k ∧ LinkedPath g cell y k := by
        intro l
        induction l with
        | nil => intro m hm; exact hm
        | cons d rest ihl =>
            intro m hm
            show ∀ y w, lookupCell (rest.foldl (frontStep g fuel cell depth)
              (frontStep g fuel cell depth m d)) y = some w → _
            apply ihl
            unfold frontStep
            by_cases hd : d ∈ g.linkSet cell
            · rw [if_pos hd]
              cases hn : g.nbr cell d with
              | none => exact hm
              | some c =>
                  show ∀ y w, lookupCell (if (lookupCell m c).isSome = true then m
                    else frontierF g fuel m c (depth + 1)) y = some w → _
                  by_cases hlook : (lookupCell m c).isSome = true
                  · rw [if_pos hlook]; exact hm
                  · rw [if_neg hlook]
                    intro y w hy
                    rcases ih m c (depth + 1)
                      (isSome_false_eq_none (by simpa using hlook)) y w hy with
                      hmem | ⟨k, hk, hp⟩
                    · exact hm y w hmem
                    · refine Or.inr ⟨k + 1, by omega, ?_⟩
                      have hstep : LinkedPath g cell c 1 :=
                        LinkedPath.step LinkedPath.refl hd hn
                      have hcat := LinkedPath.trans hstep hp
                      rwa [Nat.add_comm] at hcat
            · rw [if_neg hd]; exact hm
      have hbase : ∀ y w, lookupCell ((cell, depth) :: map) y = some w →
          lookupCell map y = some w ∨ ∃ k, w = depth + k ∧ LinkedPath g cell y k := by
        intro y w hy
        have hy2 : (if y = cell then some depth else lookupCell map y) = some w := hy
        by_cases hyc : y = cell
        · subst hyc
          rw [if_pos rfl] at hy2
          have hw : w = depth := (Option.some_inj.1 hy2).symm
          exact Or.inr ⟨0, by omega, LinkedPath.refl⟩
        · rw [if_neg hyc] at hy2
          exact Or.inl hy2
      exact haux Compass.all ((cell, depth) :: map) hbase x v hx

/-- Every cell the walk visits has an attribute record, provided the
walk starts at one and the neighbour maps are closed over the attribute
domain — the visited-cell attribute lookups of the source never panic. -/
theorem frontier_keys_attrs (g : Grid) (hnc : NbrClosed g) :
    ∀ fuel map cell depth,
      (∀ y, (lookupCell map y).isSome = true → ((g.attrs y).isSome : Bool) = true) →
      ((g.attrs cell).isSome : Bool) = true →
      ∀ x, (lookupCell (frontierF g fuel map cell depth) x).isSome = true →
        ((g.attrs x).isSome : Bool) = true := by
  intro fuel
  induction fuel with
  | zero => intro map cell depth hmap _ x hx; exact hmap x hx
  | succ fuel ih =>
      intro map cell depth hmap hcell x hx
      rw [frontierF_succ] at hx
      have haux : ∀ (l : List Compass) (m : List (Cell × Nat)),
          (∀ y, (lookupCell m y).isSome = true → ((g.attrs y).isSome : Bool) = true) →
          ∀ y, (lookupCell (l.foldl (frontStep g fuel cell depth) m) y).isSome = true →
            ((g.attrs y).isSome : Bool) = true := by
        intro l
        induction l with
        | nil => intro m hm; exact hm
        | cons d rest ihl =>
            intro m hm
            show ∀ y, (lookupCell (rest.foldl (frontStep g fuel cell depth)
              (frontStep g fuel cell depth m d)) y).isSome = true → _
            apply ihl
            unfold frontStep
            by_cases hd : d ∈ g.linkSet cell
            · rw [if_pos hd]
              cases hn : g.nbr cell d with
              | none => exact hm
              | some c =>
                  show ∀ y, (lookupCell (if (lookupCell m c).isSome = true then m
                    else frontierF g fuel m c (depth + 1)) y).isSome = true → _
                  by_cases hlook : (lookupCell m c).isSome = true
                  · rw [if_pos hlook]; exact hm
                  · rw [if_neg hlook]
                    exact ih m c (depth + 1) hm (hnc cell c d hn)
            · rw [if_neg hd]; exact hm
      have hbase : ∀ y, (lookupCell ((cell, depth) :: map) y).isSome = true →
          ((g.attrs y).isSome : Bool) = true := by
        intro y hy
        have hy2 : ((if y = cell then some depth else lookupCell map y) : Option Nat).isSome
            = true := hy
        by_cases hyc : y = cell
        · subst hyc; exact hcell
        · rw [if_neg hyc] at hy2
          exact hmap y hy2
      exact haux Compass.all ((cell, depth) :: map) hbase x hx

/-- Every recorded neighbour is an entry of the grid's cell array. -/
def CellsClosed (g : Grid) : Prop :=
  ∀ A B d, g.nbr A d = some B → some B ∈ g.cells

/-- The unmasked cells of the grid's cell array. -/
def domCells (g : Grid) : List Cell := g.cells.filterMap id

/-- Number of unmasked cells not yet in the visited map: the fuel
measure of the frontier walk. -/
def missing (g : Grid) (m : List (Cell × Nat)) : Nat :=
  ((domCells g).filter fun c => !(lookupCell m c).isSome).length

theorem length_filter_mono {α : Type} (l : List α) (p q : α → Bool)
    (h : ∀ a, q a = true → p a = true) :
    (l.filter q).length ≤ (l.filter p).length := by
  induction l with
  | nil => exact Nat.le_refl 0
  | cons a rest ih =>
      rw [List.filter_cons, List.filter_cons]
      by_cases hq : q a = true
      · rw [if_pos hq, if_pos (h a hq)]
        simpa using ih
      · rw [if_neg hq]
        by_cases hp : p a = true
        · rw [if_pos hp]
          simp only [List.length_cons]
          omega
        · rw [if_neg hp]
          exact ih

theorem length_filter_strict {α : Type} [DecidableEq α] (l : List α) (p q : α → Bool)
    (c : α) (hc : c ∈ l) (hqc : q c = false) (hpc : p c = true)
    (h : ∀ a, q a = true → p a = true) :
    (l.filter q).length < (l.filter p).length := by
  induction l with
  | nil => cases hc
  | cons a rest ih =>
      rw [List.filter_cons, List.filter_cons]
      by_cases hac : a = c
      · rw [if_neg (by rw [hac, hqc]; simp), if_pos (by rw [hac]; exact hpc)]
        simp only [List.length_cons]
        have hle := length_filter_mono rest p q h
        omega
      · rcases List.mem_cons.1 hc with heq | hrest2
        · exact absurd heq.symm hac
        · by_cases hq : q a = true
          · rw [if_pos hq, if_pos (h a hq)]
            simp only [List.length_cons]
            have hlt := ih hrest2
            omega
          · rw [if_neg hq]
            by_cases hp : p a = true
            · rw [if_pos hp]
              simp only [List.length_cons]
              have hlt := ih hrest2
              omega
            · rw [if_neg hp]
              exact ih hrest2

theorem missing_mono (g : Grid) (m m2 : List (Cell × Nat))
    (h : ∀ y, (lookupCell m y).isSome = true → (lookupCell m2 y).isSome = true) :
    missing g m2 ≤ missing g m := by
  apply length_filter_mono
  intro a ha
  by_cases hx : (lookupCell m a).isSome = true
  · have h2 := h a hx
    rw [h2] at ha
    cases ha
  · cases hy : (lookupCell m a).isSome with
    | true => exact absurd hy hx
    | false => rfl

theorem missing_insert_lt (g : Grid) (m : List (Cell × Nat)) (c : Cell) (v : Nat)
    (hc : some c ∈ g.cells) (hfresh : lookupCell m c = none) :
    missing g ((c, v) :: m) < missing g m := by
  apply length_filter_strict _ _ _ c
  · exact List.mem_filterMap.2 ⟨some c, hc, rfl⟩
  · show (!(lookupCell ((c, v) :: m) c).isSome) = false
    have hl : lookupCell ((c, v) :: m) c = some v := by
      show (if c = c then some v else lookupCell m c) = some v
      rw [if_pos rfl]
    rw [hl]
    rfl
  · show (!(lookupCell m c).isSome) = true
    rw [hfresh]
    rfl
  · intro a ha
    have ha2 : (lookupCell ((c, v) :: m) a).isSome = false := by
      cases hy : (lookupCell ((c, v) :: m) a).isSome with
      | false => rfl
      | true => rw [hy] at ha; cases ha
    have hl : lookupCell ((c, v) :: m) a =
        (if a = c then some v else lookupCell m a) := rfl
    by_cases hac : a = c
    · rw [hl, if_pos hac] at ha2
      cases ha2
    · rw [hl, if_neg hac] at ha2
      show (!(lookupCell m a).isSome) = true
      rw [ha2]
      rfl

theorem Compass.mem_all (d : Compass) : d ∈ Compass.all := by
  cases d <;> simp [Compass.all]

theorem frontier_self_mem_pos (g : Grid) (fuel : Nat) (m : List (Cell × Nat)) (c : Cell)
    (depth : Nat) (hpos : 0 < fuel) (hfresh : lookupCell m c = none) :
    lookupCell (frontierF g fuel m c depth) c = some depth := by
  obtain ⟨f2, rfl⟩ : ∃ f2, fuel = f2 + 1 := ⟨fuel - 1, by omega⟩
  exact frontier_self_mem g f2 m c depth hfresh

/-- Closure of the frontier walk: with enough fuel, every cell the walk
adds has all its linked neighbours in the final map — the walk completes
instead of being cut off. -/
theorem frontier_closed (g : Grid) (hcl : CellsClosed g) :
    ∀ fuel map cell depth,
      some cell ∈ g.cells → lookupCell map cell = none → missing g map < fuel →
      ∀ x, (lookupCell (frontierF g fuel map cell depth) x).isSome = true →
        (lookupCell map x).isSome = true ∨
        (∀ d c, d ∈ g.linkSet x → g.nbr x d = some c →
          (lookupCell (frontierF g fuel map cell depth) c).isSome = true) := by
  intro fuel
  induction fuel with
  | zero =>
      intro map cell depth _ _ hfuel
      exact absurd hfuel (Nat.not_lt_zero _)
  | succ fuel ih =>
      intro map cell depth hcells hfresh hfuel
      have hm0lt : missing g ((cell, depth) :: map) < missing g map :=
        missing_insert_lt g map cell depth hcells hfresh
      have hm0fuel : missing g ((cell, depth) :: map) < fuel := by omega
      have haux : ∀ (l : List Compass) (m : List (Cell × Nat)),
          (∀ y, (lookupCell ((cell, depth) :: map) y).isSome = true →
            (lookupCell m y).isSome = true) →
          (∀ y, (lookupCell m y).isSome = true →
            (lookupCell map y).isSome = true ∨ y = cell ∨
            (∀ d c, d ∈ g.linkSet y → g.nbr y d = some c →
              (lookupCell m c).isSome = true)) →
          ((∀ y, (lookupCell m y).isSome = true →
            (lookupCell (l.foldl (frontStep g fuel cell depth) m) y).isSome = true) ∧
          (∀ y, (lookupCell (l.foldl (frontStep g fuel cell depth) m) y).isSome = true →
            (lookupCell map y).isSome = true ∨ y = cell ∨
            (∀ d c, d ∈ g.linkSet y → g.nbr y d = some c →
              (lookupCell (l.foldl (frontStep g fuel cell depth) m) c).isSome = true)) ∧
          (∀ d ∈ l, ∀ c, d ∈ g.linkSet cell → g.nbr cell d = some c →
            (lookupCell (l.foldl (frontStep g fuel cell depth) m) c).isSome = true)) := by
        intro l
        induction l with
        | nil =>
            intro m ha hb
            exact ⟨fun y hy => hy, hb, fun d hd => absurd hd (List.not_mem_nil d)⟩
        | cons d rest ihl =>
            intro m ha hb
            by_cases hd : d ∈ g.linkSet cell
            · cases hn : g.nbr cell d with
              | none =>
                  have hm1 : frontStep g fuel cell depth m d = m := by
                    unfold frontStep
                    rw [if_pos hd, hn]
                  have hfold : (d :: rest).foldl (frontStep g fuel cell depth) m =
                      rest.foldl (frontStep g fuel cell depth) m := by
                    show rest.foldl (frontStep g fuel cell depth)
                      (frontStep g fuel cell depth m d) = _
                    rw [hm1]
                  rw [hfold]
                  obtain ⟨hmono, hinv, hrest⟩ := ihl m ha hb
                  refine ⟨hmono, hinv, ?_⟩
                  intro d0 hd0 c hdl hnc
                  rcases List.mem_cons.1 hd0 with hdd | hdr
                  · subst hdd
                    rw [hn] at hnc
                    cases hnc
                  · exact hrest d0 hdr c hdl hnc
              | some c0 =>
                  by_cases hlook : (lookupCell m c0).isSome = true
                  · have hm1 : frontStep g fuel cell depth m d = m := by
                      unfold frontStep
                      rw [if_pos hd, hn]
                      show (if (lookupCell m c0).isSome = true then m
                        else frontierF g fuel m c0 (depth + 1)) = m
                      rw [if_pos hlook]
                    have hfold : (d :: rest).foldl (frontStep g fuel cell depth) m =
                        rest.foldl (frontStep g fuel cell depth) m := by
                      show rest.foldl (frontStep g fuel cell depth)
                        (frontStep g fuel cell depth m d) = _
                      rw [hm1]
                    rw [hfold]
                    obtain ⟨hmono, hinv, hrest⟩ := ihl m ha hb
                    refine ⟨hmono, hinv, ?_⟩
                    intro d0 hd0 c hdl hnc
                    rcases List.mem_cons.1 hd0 with hdd | hdr
                    · subst hdd
                      rw [hn] at hnc
                      have hcc : c = c0 := (Option.some_inj.1 hnc).symm
                      subst hcc
                      exact hmono c hlook
                    · exact hrest d0 hdr c hdl hnc
                  · have hfreshc : lookupCell m c0 = none :=
                      isSome_false_eq_none (by simpa using hlook)
                    have hm1 : frontStep g fuel cell depth m d =
                        frontierF g fuel m c0 (depth + 1) := by
                      unfold frontStep
                      rw [if_pos hd, hn]
                      show (if (lookupCell m c0).isSome = true then m
                        else frontierF g fuel m c0 (depth + 1)) = _
                      rw [if_neg hlook]
                    have hc0cells : some c0 ∈ g.cells := hcl cell c0 d hn
                    have hmiss : missing g m < fuel := by
                      have h1 : missing g m ≤ missing g ((cell, depth) :: map) :=
                        missing_mono g ((cell, depth) :: map) m ha
                      omega
                    have hposf : 0 < fuel := by omega
                    have hmono1 : ∀ y, (lookupCell m y).isSome = true →
                        (lookupCell (frontierF g fuel m c0 (depth + 1)) y).isSome = true :=
                      fun y hy => frontier_isSome_pres g fuel m c0 (depth + 1) hfreshc y hy
                    have hself : (lookupCell (frontierF g fuel m c0 (depth + 1)) c0).isSome
                        = true := by
                      rw [frontier_self_mem_pos g fuel m c0 (depth + 1) hposf hfreshc]
                      rfl
                    have hinv1 : ∀ y,
                        (lookupCell (frontierF g fuel m c0 (depth + 1)) y).isSome = true →
                        (lookupCell map y).isSome = true ∨ y = cell ∨
                        (∀ d2 c2, d2 ∈ g.linkSet y → g.nbr y d2 = some c2 →
                          (lookupCell (frontierF g fuel m c0 (depth + 1)) c2).isSome
                            = true) := by
                      intro y hy
                      rcases ih m c0 (depth + 1) hc0cells hfreshc hmiss y hy with hmem | hcy
                      · rcases hb y hmem with h1 | h2 | h3
                        · exact Or.inl h1
                        · exact Or.inr (Or.inl h2)
                        · refine Or.inr (Or.inr ?_)
                          intro d2 c2 hd2 hn2
                          exact hmono1 c2 (h3 d2 c2 hd2 hn2)
                      · exact Or.inr (Or.inr hcy)
                    have hfold : (d :: rest).foldl (frontStep g fuel cell depth) m =
                        rest.foldl (frontStep g fuel cell depth)
                          (frontierF g fuel m c0 (depth + 1)) := by
                      show rest.foldl (frontStep g fuel cell depth)
                        (frontStep g fuel cell depth m d) = _
                      rw [hm1]
                    rw [hfold]
                    obtain ⟨hmono2, hinv2, hrest2⟩ := ihl (frontierF g fuel m c0 (depth + 1))
                      (fun y hy => hmono1 y (ha y hy)) hinv1
                    refine ⟨fun y hy => hmono2 y (hmono1 y hy), hinv2, ?_⟩
                    intro d0 hd0 c hdl hnc
                    rcases List.mem_cons.1 hd0 with hdd | hdr
                    · subst hdd
                      rw [hn] at hnc
                      have hcc : c = c0 := (Option.some_inj.1 hnc).symm
                      subst hcc
                      exact hmono2 c hself
                    · exact hrest2 d0 hdr c hdl hnc
            · have hm1 : frontStep g fuel cell depth m d = m := by
                unfold frontStep
                rw [if_neg hd]
              have hfold : (d :: rest).foldl (frontStep g fuel cell depth) m =
                  rest.foldl (frontStep g fuel cell depth) m := by
                show rest.foldl (frontStep g fuel cell depth)
                  (frontStep g fuel cell depth m d) = _
                rw [hm1]
              rw [hfold]
              obtain ⟨hmono, hinv, hrest⟩ := ihl m ha hb
              refine ⟨hmono, hinv, ?_⟩
              intro d0 hd0 c hdl hnc
              rcases List.mem_cons.1 hd0 with hdd | hdr
              · subst hdd
                exact absurd hdl hd
              · exact hrest d0 hdr c hdl hnc
      have hbase : ∀ y, (lookupCell ((cell, depth) :: map) y).isSome = true →
          (lookupCell map y).isSome = true ∨ y = cell ∨
          (∀ d c, d ∈ g.linkSet y → g.nbr y d = some c →
            (lookupCell ((cell, depth) :: map) c).isSome = true) := by
        intro y hy
        by_cases hyc : y = cell
        · exact Or.inr (Or.inl hyc)
        · have hy2 : ((if y = cell then some depth else lookupCell map y) :
              Option Nat).isSome = true := hy
          rw [if_neg hyc] at hy2
          exact Or.inl hy2
      obtain ⟨hmono, hinv, hclosedall⟩ := haux Compass.all ((cell, depth) :: map)
        (fun y hy => hy) hbase
      intro x hx
      rw [frontierF_succ] at hx
      rcases hinv x hx with hmap | hxc | hcl2
      · exact Or.inl hmap
      · subst hxc
        refine Or.inr ?_
        intro d c hd hn
        rw [frontierF_succ]
        exact hclosedall d (Compass.mem_all d) c hd hn
      · refine Or.inr ?_
        intro d c hd hn
        rw [frontierF_succ]
        exact hcl2 d c hd hn

/-- Reachability completeness: starting from an empty map with enough
fuel, the walk visits every endpoint of a carved-link path from the
root. -/
theorem frontier_complete (g : Grid) (hcl : CellsClosed g) (fuel : Nat) (cell : Cell)
    (hcells : some cell ∈ g.cells) (hfuel : missing g [] < fuel) :
    ∀ x n, LinkedPath g cell x n →
      (lookupCell (frontierF g fuel [] cell 0) x).isSome = true := by
  intro x n hp
  induction hp with
  | refl =>
      rw [frontier_self_mem_pos g fuel [] cell 0 (by omega) rfl]
      rfl
  | step hp hd hn ih =>
      rcases frontier_closed g hcl fuel [] cell 0 hcells rfl hfuel _ ih with h0 | hclose
      · simp [lookupCell] at h0
      · exact hclose _ _ hd hn

theorem missing_nil_le (g : Grid) : missing g [] ≤ g.cells.length := by
  unfold missing domCells
  calc ((g.cells.filterMap id).filter fun c => !(lookupCell [] c).isSome).length
      ≤ (g.cells.filterMap id).length := List.length_filter_le _ _
    _ ≤ g.cells.length := List.length_filterMap_le id g.cells

theorem gridBuild_cell_at (rows columns : Nat) (allowed : Nat → Nat → Bool)
    (hsize : rows * columns < u32size) (r c : Nat) :
    (gridBuild rows columns allowed).cell_at r c =
      if r < rows ∧ c < columns ∧ allowed r c = true then some ⟨r, c⟩ else none := by
  by_cases hin : r < rows ∧ c < columns
  · have hoff : Compass.offset rows columns r c = some (r * columns + c) :=
      offset_eq hsize hin.1 hin.2
    have hstep : (gridBuild rows columns allowed).cell_at r c =
        (build_cells rows columns allowed).getD (r * columns + c) none := by
      unfold Grid.cell_at
      show (match Compass.offset rows columns r c with
        | some i => (build_cells rows columns allowed).getD i none
        | none => none) = _
      rw [hoff]
    rw [hstep]
    have hget := build_cells_getElem rows columns allowed r c hin.1 hin.2
    rw [List.getD_eq_getElem?_getD, hget]
    by_cases ha : allowed r c = true
    · rw [if_pos ha, if_pos ⟨hin.1, hin.2, ha⟩]
      rfl
    · rw [if_neg ha, if_neg (fun h => ha h.2.2)]
      rfl
  · have hoff : Compass.offset rows columns r c = none := offset_none hin
    have hstep : (gridBuild rows columns allowed).cell_at r c = none := by
      unfold Grid.cell_at
      show (match Compass.offset rows columns r c with
        | some i => (build_cells rows columns allowed).getD i none
        | none => none) = _
      rw [hoff]
    rw [hstep, if_neg (fun h => hin ⟨h.1, h.2.1⟩)]

theorem applyOps_cell_at (g : Grid) (ops : List Op) (r c : Nat) :
    (g.applyOps ops).cell_at r c = g.cell_at r c := by
  unfold Grid.cell_at
  rw [applyOps_rows, applyOps_columns, applyOps_cells]

theorem cell_at_mem {g : Grid} {r c : Nat} {x : Cell} (h : g.cell_at r c = some x) :
    some x ∈ g.cells := by
  unfold Grid.cell_at at h
  cases hoff : Compass.offset g.rows g.columns r c with
  | none => rw [hoff] at h; cases h
  | some i =>
      rw [hoff] at h
      exact getD_none_eq_some_mem h

theorem gridBuild_CellsClosed (rows columns : Nat) (allowed : Nat → Nat → Bool)
    (hsize : rows * columns < u32size) : CellsClosed (gridBuild rows columns allowed) := by
  intro A B d h
  obtain ⟨hA, hB, _⟩ := gridBuild_nbr_some hsize h
  exact mem_build_cells_iff_inGrid.2 hB

theorem applyOps_CellsClosed {g : Grid} (h : CellsClosed g) (ops : List Op) :
    CellsClosed (g.applyOps ops) := by
  intro A B d hn
  rw [applyOps_nbr] at hn
  rw [applyOps_cells]
  exact h A B d hn

/-- C9: `solve` fails (returns the fatal-error `none`) exactly when the
start coordinates are out of range or masked; for every valid start it
returns a `Distances` result, and every cell its walk visited has an
attribute record — the internal attribute lookups cannot panic. -/
theorem c9_solve_start_validity (rows columns : Nat) (allowed : Nat → Nat → Bool)
    (ops : List Op) (r c : Nat) (hsize : rows * columns < u32size) :
    (Dijkstra.solve ((gridBuild rows columns allowed).applyOps ops) (r, c) = none ↔
      ¬ (r < rows ∧ c < columns ∧ allowed r c = true)) ∧
    (∀ ds, Dijkstra.solve ((gridBuild rows columns allowed).applyOps ops) (r, c) = some ds →
      ∀ x, (lookupCell ds.cells x).isSome = true →
        ((((gridBuild rows columns allowed).applyOps ops).attrs x).isSome : Bool) = true) := by
  have hca : ((gridBuild rows columns allowed).applyOps ops).cell_at r c =
      if r < rows ∧ c < columns ∧ allowed r c = true then some ⟨r, c⟩ else none := by
    rw [applyOps_cell_at]
    exact gridBuild_cell_at rows columns allowed hsize r c
  by_cases hvalid : r < rows ∧ c < columns ∧ allowed r c = true
  · rw [if_pos hvalid] at hca
    have hsolve : Dijkstra.solve ((gridBuild rows columns allowed).applyOps ops) (r, c) =
        some (Distances.new (frontierF ((gridBuild rows columns allowed).applyOps ops)
          (((gridBuild rows columns allowed).applyOps ops).cells.length + 1) [] ⟨r, c⟩ 0)) := by
      unfold Dijkstra.solve
      rw [hca]
    constructor
    · rw [hsolve]
      constructor
      · intro h; cases h
      · intro h; exact absurd hvalid h
    · intro ds hds x hx
      rw [hsolve] at hds
      have hdse : ds = Distances.new (frontierF ((gridBuild rows columns allowed).applyOps ops)
          (((gridBuild rows columns allowed).applyOps ops).cells.length + 1) [] ⟨r, c⟩ 0) :=
        (Option.some_inj.1 hds).symm
      subst hdse
      have hnc : NbrClosed ((gridBuild rows columns allowed).applyOps ops) :=
        (applyOps_invariants (gridBuild_NbrSym rows columns allowed hsize)
          (gridBuild_NbrClosed rows columns allowed hsize)
          (gridBuild_LinkSym rows columns allowed) ops).2.1
      have hstart : ((((gridBuild rows columns allowed).applyOps ops).attrs ⟨r, c⟩).isSome :
          Bool) = true := by
        rw [applyOps_isSome]
        exact gridBuild_attrs_isSome.2 hvalid
      exact frontier_keys_attrs ((gridBuild rows columns allowed).applyOps ops) hnc
        (((gridBuild rows columns allowed).applyOps ops).cells.length + 1) [] ⟨r, c⟩ 0
        (fun y hy => by simp [lookupCell] at hy) hstart x hx
  · rw [if_neg hvalid] at hca
    have hsolve : Dijkstra.solve ((gridBuild rows columns allowed).applyOps ops) (r, c) =
        none := by
      unfold Dijkstra.solve
      rw [hca]
    constructor
    · rw [hsolve]
      constructor
      · intro _; exact hvalid
      · intro _; rfl
    · intro ds hds
      rw [hsolve] at hds
      cases hds

theorem c9_solve_start_validity_witness :
    2 * 2 < u32size ∧
      ((Dijkstra.solve ((gridBuild 2 2 (fun _ _ => true)).applyOps []) (0, 0) = none ↔
        ¬ (0 < 2 ∧ 0 < 2 ∧ true = true)) ∧
      (∀ ds, Dijkstra.solve ((gridBuild 2 2 (fun _ _ => true)).applyOps []) (0, 0) =
          some ds →
        ∀ x, (lookupCell ds.cells x).isSome = true →
          ((((gridBuild 2 2 (fun _ _ => true)).applyOps []).attrs x).isSome : Bool) =
            true)) :=
  ⟨by decide, c9_solve_start_validity 2 2 (fun _ _ => true) [] 0 0 (by decide)⟩

/-- C3 (amended): for every constructed-and-carved maze and valid start,
`solve` assigns the start cell distance 0, assigns a distance to exactly
the cells reachable from the start along carved links, and every
assigned distance is the length of an actual carved-link path from the
start to that cell.  (On cyclic link graphs the depth-first walk can
assign a distance longer than the shortest path — see the
counterexample; equality with the shortest path holds only under the
tree-shaped-link-graph assumption flagged in the specification.) -/
theorem c3_solve_distances (rows columns : Nat) (allowed : Nat → Nat → Bool) (ops : List Op)
    (r c : Nat) (hsize : rows * columns < u32size)
    (hvalid : r < rows ∧ c < columns ∧ allowed r c = true) :
    ∃ ds, Dijkstra.solve ((gridBuild rows columns allowed).applyOps ops) (r, c) =
        some ds ∧
      lookupCell ds.cells ⟨r, c⟩ = some 0 ∧
      (∀ x v, lookupCell ds.cells x = some v →
        LinkedPath ((gridBuild rows columns allowed).applyOps ops) ⟨r, c⟩ x v) ∧
      (∀ x, (∃ n, LinkedPath ((gridBuild rows columns allowed).applyOps ops) ⟨r, c⟩ x n) ↔
        (lookupCell ds.cells x).isSome = true) := by
  have hca : ((gridBuild rows columns allowed).applyOps ops).cell_at r c = some ⟨r, c⟩ := by
    rw [applyOps_cell_at, gridBuild_cell_at rows columns allowed hsize r c, if_pos hvalid]
  have hsolve : Dijkstra.solve ((gridBuild rows columns allowed).applyOps ops) (r, c) =
      some (Distances.new (frontierF ((gridBuild rows columns allowed).applyOps ops)
        (((gridBuild rows columns allowed).applyOps ops).cells.length + 1) [] ⟨r, c⟩ 0)) := by
    unfold Dijkstra.solve
    rw [hca]
  have hcl : CellsClosed ((gridBuild rows columns allowed).applyOps ops) :=
    applyOps_CellsClosed (gridBuild_CellsClosed rows columns allowed hsize) ops
  have hmem : some (⟨r, c⟩ : Cell) ∈ ((gridBuild rows columns allowed).applyOps ops).cells :=
    cell_at_mem hca
  have hfuel : missing ((gridBuild rows columns allowed).applyOps ops) [] <
      ((gridBuild rows columns allowed).applyOps ops).cells.length + 1 := by
    have := missing_nil_le ((gridBuild rows columns allowed).applyOps ops)
    omega
  refine ⟨_, hsolve, ?_, ?_, ?_⟩
  · exact frontier_self_mem_pos _ _ [] ⟨r, c⟩ 0 (by omega) rfl
  · intro x v hx
    rcases frontier_lookup_source _ _ [] ⟨r, c⟩ 0 rfl x v hx with h0 | ⟨k, hk, hp⟩
    · simp [lookupCell] at h0
    · have hvk : v = k := by omega
      rwa [hvk]
  · intro x
    constructor
    · rintro ⟨n, hp⟩
      exact frontier_complete _ hcl _ ⟨r, c⟩ hmem hfuel x n hp
    · intro hx
      obtain ⟨v, hv⟩ := Option.isSome_iff_exists.1 hx
      rcases frontier_lookup_source _ _ [] ⟨r, c⟩ 0 rfl x v hv with h0 | ⟨k, hk, hp⟩
      · simp [lookupCell] at h0
      · exact ⟨k, hp⟩

theorem c3_solve_distances_witness :
    (2 * 2 < u32size ∧ (0 < 2 ∧ 0 < 2 ∧ true = true)) ∧
      (∃ ds, Dijkstra.solve ((gridBuild 2 2 (fun _ _ => true)).applyOps
          [Op.link ⟨0, 0⟩ Compass.east]) (0, 0) = some ds ∧
        lookupCell ds.cells ⟨0, 0⟩ = some 0 ∧
        (∀ x v, lookupCell ds.cells x = some v →
          LinkedPath ((gridBuild 2 2 (fun _ _ => true)).applyOps
            [Op.link ⟨0, 0⟩ Compass.east]) ⟨0, 0⟩ x v) ∧
        (∀ x, (∃ n, LinkedPath ((gridBuild 2 2 (fun _ _ => true)).applyOps
            [Op.link ⟨0, 0⟩ Compass.east]) ⟨0, 0⟩ x n) ↔
          (lookupCell ds.cells x).isSome = true)) :=
  ⟨⟨by decide, by decide⟩,
    c3_solve_distances 2 2 (fun _ _ => true) [Op.link ⟨0, 0⟩ Compass.east] 0 0
      (by decide) (by decide)⟩

/-- A fully carved 2x2 maze: its link graph is a 4-cycle. -/
def gCycle : Grid :=
  (gridBuild 2 2 (fun _ _ => true)).applyOps
    [Op.link ⟨0, 0⟩ Compass.east, Op.link ⟨0, 0⟩ Compass.south,
     Op.link ⟨0, 1⟩ Compass.south, Op.link ⟨1, 0⟩ Compass.east]

/-- C3 counterexample: on the cyclic 2x2 maze the depth-first walk from
(0, 0) reaches (1, 0) the long way round and records distance 3, yet a
carved-link path of length 1 exists — the assigned distance is not the
shortest-path length. -/
theorem c3_counterexample :
    (Dijkstra.solve gCycle (0, 0)).map (fun ds => lookupCell ds.cells ⟨1, 0⟩) =
      some (some 3) ∧
      LinkedPath gCycle ⟨0, 0⟩ ⟨1, 0⟩ 1 ∧ (3 : Nat) ≠ 1 := by
  refine ⟨by decide, ?_, by decide⟩
  exact LinkedPath.step LinkedPath.refl
    (show Compass.south ∈ gCycle.linkSet ⟨0, 0⟩ by decide)
    (show gCycle.nbr ⟨0, 0⟩ Compass.south = some ⟨1, 0⟩ by decide)
